import Mathlib

/-!
Verification of the override-resolution, template-substitution and
disabled-subtree pruning engine of validate_workflow_config.py.

The Python program is shallowly embedded: JSON values become the tagged
Value type below, Python dictionaries become association lists whose
key uniqueness is maintained by the insertion operation, and fallible
code returns Except. Floating point numbers are represented exactly as
a decimal mantissa and a power-of-ten exponent: the program only
parses, stores and compares floats (no float arithmetic is reachable,
since arithmetic operator nodes are rejected by the expression
checker), so this exact decimal representation is observationally
adequate for every theorem in this development.
-/

namespace VWC

/-- The JSON value model (Python: values produced by json.load).
A float is represented exactly as mant * 10 ^ exp10. -/
inductive Value where
  | null : Value
  | bool (b : Bool) : Value
  | int (n : Int) : Value
  | float (mant : Int) (exp10 : Int) : Value
  | str (s : String) : Value
  | obj (members : List (String × Value)) : Value
  | arr (items : List Value) : Value

/-- Whether a value is the Python None / JSON null. -/
def Value.isNull : Value → Bool
  | .null => true
  | _ => false

/-- Whether a value is a dict or a list (Python isinstance(v, (dict, list))). -/
def Value.isComplex : Value → Bool
  | .obj _ => true
  | .arr _ => true
  | _ => false

/-- Whether a value is a scalar in the sense of the spec:
Null, Bool, Number or String. -/
def Value.isScalar : Value → Bool
  | .obj _ => false
  | .arr _ => false
  | _ => true

/-- Characters that Python str.strip() removes (ASCII whitespace;
unicode whitespace is not modelled). -/
def isWs (c : Char) : Bool :=
  c = ' ' || c = '\t' || c = '\n' || c = '\x0d' || c = '\x0c' || c = '\x0b'

/-- Strip leading and trailing whitespace (Python str.strip()). -/
def trimWs (cs : List Char) : List Char :=
  ((cs.dropWhile isWs).reverse.dropWhile isWs).reverse

/-- Whether the second list starts with the first (Python str.startswith). -/
def isPreL : List Char → List Char → Bool
  | [], _ => true
  | _ :: _, [] => false
  | p :: ps, c :: cs => p = c && isPreL ps cs

/-- Whether pat occurs as a contiguous substring (Python: pat in s). -/
def hasSubstrL (pat : List Char) : List Char → Bool
  | [] => pat.isEmpty
  | c :: rest => isPreL pat (c :: rest) || hasSubstrL pat rest

/-- Python s.split(sep) for a single-character separator. -/
def splitOnCharL (sep : Char) : List Char → List (List Char)
  | [] => [[]]
  | c :: rest =>
      let r := splitOnCharL sep rest
      if c = sep then [] :: r
      else
        match r with
        | [] => [[c]]
        | h :: t => (c :: h) :: t

/-- Python s.split(sep, 1): split at the first occurrence of sep,
none when sep does not occur. -/
def splitFirstAt (sep : Char) : List Char → Option (List Char × List Char)
  | [] => none
  | c :: rest =>
      if c = sep then some ([], rest)
      else (splitFirstAt sep rest).map (fun p => (c :: p.1, p.2))

/-- Split at the first character satisfying p; the second component is
the remainder after that character when one exists. -/
def splitAtFirst (p : Char → Bool) : List Char → (List Char × Option (List Char))
  | [] => ([], none)
  | c :: rest =>
      if p c then ([], some rest)
      else
        let r := splitAtFirst p rest
        (c :: r.1, r.2)

/-- Python value.strip(q) for the double-quote character: remove every
leading and trailing double quote. -/
def stripQuoteEnds (cs : List Char) : List Char :=
  ((cs.dropWhile (fun c => c = '"')).reverse.dropWhile (fun c => c = '"')).reverse

/-- Remove every non-overlapping occurrence of the nonempty pattern
whose head and tail are given, scanning left to right. The fuel is
always at least the length of the remaining input plus one, so the
exhaustion branch is unreachable from removeAll. -/
def removeAllAux (p : Char) (ps : List Char) : Nat → List Char → List Char
  | 0, cs => cs
  | _ + 1, [] => []
  | fuel + 1, c :: rest =>
      if isPreL (p :: ps) (c :: rest) then removeAllAux p ps fuel (rest.drop ps.length)
      else c :: removeAllAux p ps fuel rest

/-- Python s.replace(pat, the two-argument form with an empty
replacement text): remove every non-overlapping occurrence of pat,
scanning left to right. The empty-pattern case never arises in this
development (the pattern is always the nonempty marker string). -/
def removeAll (pat : List Char) (cs : List Char) : List Char :=
  match pat with
  | [] => cs
  | p :: ps => removeAllAux p ps (cs.length + 1) cs

/-- A digit run possibly containing single interior underscores, as the
Python int and float parsers accept (grammar: digit (digit or
underscore-digit)*). -/
def isUDigitTail : List Char → Bool
  | [] => true
  | c :: rest =>
      if c = '_' then
        match rest with
        | c2 :: r2 => c2.isDigit && isUDigitTail r2
        | [] => false
      else c.isDigit && isUDigitTail rest

/-- A nonempty underscore-separated digit run (see isUDigitTail). -/
def isUDigitRun : List Char → Bool
  | [] => false
  | c :: rest => c.isDigit && isUDigitTail rest

/-- Numeric value of a digit run, ignoring underscores. -/
def digitsVal (cs : List Char) : Nat :=
  (cs.filter (fun c => c ≠ '_')).foldl (fun acc c => acc * 10 + (c.toNat - '0'.toNat)) 0

/-- Consume an optional leading sign, returning it as 1 or -1. -/
def splitSign : List Char → (Int × List Char)
  | [] => (1, [])
  | c :: rest =>
      if c = '+' then (1, rest)
      else if c = '-' then (-1, rest)
      else (1, c :: rest)

/-- Python int(s) on a string: surrounding whitespace, an optional
sign, then an underscore-separated digit run. (Non-ASCII digits are
not modelled.) -/
def pyIntL? (cs : List Char) : Option Int :=
  let t := trimWs cs
  let p := splitSign t
  if isUDigitRun p.2 then some (p.1 * (digitsVal p.2 : Int)) else none

/-- Python float(s) on a string, returned as an exact decimal pair
(mantissa, power-of-ten exponent): surrounding whitespace, optional
sign, integer part, optional fractional part, optional exponent; at
least one digit overall. The special texts inf, infinity and nan are
not modelled (no claim concerns them). -/
def pyFloatL? (cs : List Char) : Option (Int × Int) :=
  let t := trimWs cs
  let s := splitSign t
  let em := splitAtFirst (fun c => c = 'e' || c = 'E') s.2
  let dm := splitAtFirst (fun c => c = '.') em.1
  let ip := dm.1
  let fp := (dm.2).getD []
  if ip.isEmpty && fp.isEmpty then none
  else if !ip.isEmpty && !isUDigitRun ip then none
  else if !fp.isEmpty && !isUDigitRun fp then none
  else
    let fd := (fp.filter (fun c => c ≠ '_')).length
    let m : Int := s.1 * ((digitsVal ip : Int) * (10 : Int) ^ fd + (digitsVal fp : Int))
    match em.2 with
    | none => some (m, -(fd : Int))
    | some ex =>
        let es := splitSign ex
        if isUDigitRun es.2 then some (m, es.1 * (digitsVal es.2 : Int) - (fd : Int))
        else none

/-- Python str(n) for an int. -/
def intStr (n : Int) : List Char := (toString n).data

/-- Approximate rendering of a float (Python str). No theorem in this
development depends on its output; it only makes the substitution
callback total, since no claim exercises a float binding rendered into
text. -/
def floatRepr (m : Int) (e : Int) : List Char :=
  if e = 0 then intStr m ++ ('.' :: '0' :: [])
  else intStr m ++ ('e' :: intStr e)

/-- Lookup in a Python dict represented as an association list with
unique keys (dict.get, returning none when absent). -/
def pyGet : List (String × Value) → String → Option Value
  | [], _ => none
  | (k, v) :: rest, key => if k = key then some v else pyGet rest key

/-- Python dict assignment d[k] = v: replace the value in place when
the key exists, else append. -/
def pyDictInsert : List (String × Value) → String → Value → List (String × Value)
  | [], k, v => [(k, v)]
  | (k0, v0) :: rest, k, v =>
      if k0 = k then (k, v) :: rest else (k0, v0) :: pyDictInsert rest k v

/-- Python: key in d. -/
def containsKey : List (String × Value) → String → Bool
  | [], _ => false
  | (k0, _) :: rest, k => k0 = k || containsKey rest k

/-- Python d.pop(k): remove the (unique) entry with the given key. -/
def eraseKey : List (String × Value) → String → List (String × Value)
  | [], _ => []
  | (k0, v0) :: rest, k => if k0 = k then rest else (k0, v0) :: eraseKey rest k

/-- Python truthiness of a JSON value. -/
def pyTruthy : Value → Bool
  | .null => false
  | .bool b => b
  | .int n => n != 0
  | .float m _ => m != 0
  | .str s => !s.isEmpty
  | .obj ms => !ms.isEmpty
  | .arr xs => !xs.isEmpty

/-- Whether the exact decimal m * 10 ^ e equals 1 (Python: 1.0 == True). -/
def floatIsOne (m e : Int) : Bool :=
  if e ≥ 0 then m * (10 : Int) ^ e.toNat == 1 else m == (10 : Int) ^ (-e).toNat

/-- Python: x == True for an optional JSON value (the result of
dict.get). True itself, the int 1 and the float 1.0 compare equal to
True; everything else, including a missing key (None), does not. -/
def pyEqTrueO : Option Value → Bool
  | some (.bool b) => b
  | some (.int n) => n == 1
  | some (.float m e) => floatIsOne m e
  | _ => false

mutual

/-- Python remove_disabled_elements (source lines 13-26). Python None
plays both the role of the JSON null value and of the removed marker;
the embedding mirrors this exactly by using Value.null for both. -/
def remove_disabled_elements : Value → Value
  | .obj ms =>
      if pyEqTrueO (pyGet ms "disabled") then .null
      else
        let cleaned := rdeMembers ms
        if cleaned.isEmpty then .null else .obj cleaned
  | .arr xs =>
      let cleaned := rdeItems xs
      if cleaned.isEmpty then .null else .arr cleaned
  | v => v

/-- The dict comprehension inside remove_disabled_elements: keep the
members whose pruned value is not None, with their pruned values. -/
def rdeMembers : List (String × Value) → List (String × Value)
  | [] => []
  | (k, v) :: rest =>
      if (remove_disabled_elements v).isNull then rdeMembers rest
      else (k, remove_disabled_elements v) :: rdeMembers rest

/-- The list comprehension inside remove_disabled_elements: keep the
items whose pruned value is not None, pruned. -/
def rdeItems : List Value → List Value
  | [] => []
  | v :: rest =>
      if (remove_disabled_elements v).isNull then rdeItems rest
      else remove_disabled_elements v :: rdeItems rest

end

/-- The failure modes of the run that the embedding distinguishes.
Every constructor corresponds to an uncaught Python exception (or a
sys.exit): ValueError, TypeError, NameError, a SyntaxError from parsing
an expression, AttributeError, json.JSONDecodeError, and the explicit
sys.exit in safe_evaluate_condition. All are fatal: no output document
is produced when any of them is returned. -/
inductive RunErr where
  | valueErr : RunErr
  | typeErr : RunErr
  | nameErr : RunErr
  | malformedExpr : RunErr
  | attributeErr : RunErr
  | jsonDecodeErr : RunErr
  | exitErr : RunErr

/-- A Python dict of variable bindings, as an insertion-ordered
association list with unique keys. -/
abbrev Bindings := List (String × Value)

/-- The whitespace characters of the JSON grammar. -/
def skipWsJ (cs : List Char) : List Char :=
  cs.dropWhile (fun c => c = ' ' || c = '\t' || c = '\n' || c = '\x0d')

/-- Drop leading whitespace only. -/
def trimLeadWs (cs : List Char) : List Char := cs.dropWhile isWs

/-- Python s.endswith(c) for one character. -/
def endsWithChar (c : Char) (cs : List Char) : Bool :=
  match cs.getLast? with
  | some d => d = c
  | none => false

/-- Python s.lower() (ASCII case folding; unicode is not modelled). -/
def lowerL (cs : List Char) : List Char := cs.map Char.toLower

/-- The body of a JSON string after the opening quote: returns the
decoded characters and the remainder after the closing quote. The
unicode escape form (backslash-u) is not modelled; no claim depends on
it. -/
def jStringChars : List Char → Option (List Char × List Char)
  | [] => none
  | '"' :: rest => some ([], rest)
  | '\\' :: e :: rest =>
      match (match e with
             | '"' => some '"'
             | '\\' => some '\\'
             | '/' => some '/'
             | 'b' => some '\x08'
             | 'f' => some '\x0c'
             | 'n' => some '\n'
             | 'r' => some '\x0d'
             | 't' => some '\t'
             | _ => none) with
      | none => none
      | some d => (jStringChars rest).map (fun p => (d :: p.1, p.2))
  | c :: rest => (jStringChars rest).map (fun p => (c :: p.1, p.2))

/-- A JSON digit run (no underscores, unlike the Python int parser). -/
def jDigits : List Char → (List Char × List Char) :=
  fun cs => (cs.takeWhile Char.isDigit, cs.dropWhile Char.isDigit)

/-- A JSON number: optional minus, an integer part without leading
zeros, an optional fraction and an optional exponent. An integer
literal yields an int, anything with a fraction or exponent a float
(as Python json.loads does). -/
def jsonNumber (cs : List Char) : Option (Value × List Char) :=
  let sgn : Int := if isPreL ['-'] cs then -1 else 1
  let cs1 := if isPreL ['-'] cs then cs.drop 1 else cs
  let ip := jDigits cs1
  if ip.1.isEmpty then none
  else if isPreL ['0'] ip.1 && ip.1.length > 1 then none
  else
    let afterInt := ip.2
    let fr :=
      match afterInt with
      | '.' :: r2 =>
          let f := jDigits r2
          if f.1.isEmpty then none else some (f.1, f.2)
      | _ => some ([], afterInt)
    match fr with
    | none => none
    | some (fdigits, cs2) =>
        let ex :=
          match cs2 with
          | 'e' :: r3 => some r3
          | 'E' :: r3 => some r3
          | _ => none
        match ex with
        | none =>
            if fdigits.isEmpty then some (.int (sgn * (digitsVal ip.1 : Int)), cs2)
            else
              some (.float (sgn * ((digitsVal ip.1 : Int) * (10 : Int) ^ fdigits.length
                      + (digitsVal fdigits : Int))) (-(fdigits.length : Int)), cs2)
        | some r3 =>
            let es := splitSign r3
            let ed := jDigits es.2
            if ed.1.isEmpty then none
            else
              some (.float (sgn * ((digitsVal ip.1 : Int) * (10 : Int) ^ fdigits.length
                      + (digitsVal fdigits : Int)))
                    (es.1 * (digitsVal ed.1 : Int) - (fdigits.length : Int)), ed.2)

mutual

/-- One JSON value with the remaining input (fuel-bounded recursive
descent; the fuel only bounds nesting and list length, it encodes no
semantics). Models Python json.loads. -/
def jsonValue : Nat → List Char → Option (Value × List Char)
  | 0, _ => none
  | fuel + 1, cs =>
      match skipWsJ cs with
      | 'n' :: 'u' :: 'l' :: 'l' :: rest => some (.null, rest)
      | 't' :: 'r' :: 'u' :: 'e' :: rest => some (.bool true, rest)
      | 'f' :: 'a' :: 'l' :: 's' :: 'e' :: rest => some (.bool false, rest)
      | '"' :: rest => (jStringChars rest).map (fun p => (.str (String.mk p.1), p.2))
      | '[' :: rest =>
          (match skipWsJ rest with
           | ']' :: rest2 => some (.arr [], rest2)
           | cs2 =>
               match jsonValue fuel cs2 with
               | none => none
               | some (v, cs3) => jsonArrTail fuel cs3 [v])
      | '{' :: rest =>
          (match skipWsJ rest with
           | '}' :: rest2 => some (.obj [], rest2)
           | cs2 =>
               match jsonMember fuel cs2 with
               | none => none
               | some (k, v, cs3) => jsonObjTail fuel cs3 (pyDictInsert [] k v))
      | cs1 => jsonNumber cs1

/-- The elements of a JSON array after the first one. -/
def jsonArrTail : Nat → List Char → List Value → Option (Value × List Char)
  | 0, _, _ => none
  | fuel + 1, cs, acc =>
      match skipWsJ cs with
      | ',' :: rest =>
          (match jsonValue fuel rest with
           | none => none
           | some (v, cs2) => jsonArrTail fuel cs2 (acc ++ [v]))
      | ']' :: rest => some (.arr acc, rest)
      | _ => none

/-- One key-value member of a JSON object. -/
def jsonMember : Nat → List Char → Option (String × Value × List Char)
  | 0, _ => none
  | fuel + 1, cs =>
      match skipWsJ cs with
      | '"' :: rest =>
          (match jStringChars rest with
           | none => none
           | some (kcs, cs2) =>
               match skipWsJ cs2 with
               | ':' :: cs3 =>
                   (match jsonValue fuel cs3 with
                    | none => none
                    | some (v, cs4) => some (String.mk kcs, v, cs4))
               | _ => none)
      | _ => none

/-- The members of a JSON object after the first one; duplicate keys
overwrite earlier ones, as Python dict insertion does. -/
def jsonObjTail : Nat → List Char → Bindings → Option (Value × List Char)
  | 0, _, _ => none
  | fuel + 1, cs, acc =>
      match skipWsJ cs with
      | ',' :: rest =>
          (match jsonMember fuel rest with
           | none => none
           | some (k, v, cs2) => jsonObjTail fuel cs2 (pyDictInsert acc k v))
      | '}' :: rest => some (.obj acc, rest)
      | _ => none

end

/-- Python json.loads on a whole string. -/
def jsonLoads (cs : List Char) : Option Value :=
  match jsonValue (2 * cs.length + 4) cs with
  | none => none
  | some (v, rest) => if (skipWsJ rest).isEmpty then some v else none

/-- Scan the tail of a numeric token with fuel (always at least the
input length plus one): digits, underscores, dots and exponent
markers, with a sign accepted directly after an exponent marker. -/
def numTokTailAux : Nat → List Char → (List Char × List Char)
  | 0, cs => ([], cs)
  | _ + 1, [] => ([], [])
  | fuel + 1, c :: rest =>
      if c.isDigit || c = '_' || c = '.' then
        let r := numTokTailAux fuel rest
        (c :: r.1, r.2)
      else if c = 'e' || c = 'E' then
        match rest with
        | s :: r2 =>
            if s = '+' || s = '-' then
              let r := numTokTailAux fuel r2
              (c :: s :: r.1, r.2)
            else
              let r := numTokTailAux fuel (s :: r2)
              (c :: r.1, r.2)
        | [] => ([c], [])
      else ([], c :: rest)

/-- Scan the tail of a numeric token. -/
def numTokTail (cs : List Char) : (List Char × List Char) :=
  numTokTailAux (cs.length + 1) cs

/-- A signed numeric Python literal: scan the token greedily, then
classify it with the int parser and the float parser. -/
def pyLitNumber (cs : List Char) : Option (Value × List Char) :=
  let s := splitSign cs
  let t := numTokTail s.2
  if t.1.isEmpty then none
  else
    match pyIntL? t.1 with
    | some n => some (.int (s.1 * n), t.2)
    | none =>
        match pyFloatL? t.1 with
        | some p => some (.float (s.1 * p.1) p.2, t.2)
        | none => none

mutual

/-- One Python literal with the remaining input, for the subset of
ast.literal_eval that bracketed override values can use: strings with
either quote character (without escape sequences), ints, floats,
booleans, None, and nested lists and string-keyed dicts. Anything
else is rejected, which only narrows the set of well-formed override
strings (no claim depends on the unmodelled forms). -/
def pyLitValue : Nat → List Char → Option (Value × List Char)
  | 0, _ => none
  | fuel + 1, cs =>
      match trimLeadWs cs with
      | 'T' :: 'r' :: 'u' :: 'e' :: rest => some (.bool true, rest)
      | 'F' :: 'a' :: 'l' :: 's' :: 'e' :: rest => some (.bool false, rest)
      | 'N' :: 'o' :: 'n' :: 'e' :: rest => some (.null, rest)
      | '\'' :: rest =>
          (match splitAtFirst (fun c => c = '\'') rest with
           | (body, some rest2) => some (.str (String.mk body), rest2)
           | _ => none)
      | '"' :: rest =>
          (match splitAtFirst (fun c => c = '"') rest with
           | (body, some rest2) => some (.str (String.mk body), rest2)
           | _ => none)
      | '[' :: rest =>
          (match trimLeadWs rest with
           | ']' :: rest2 => some (.arr [], rest2)
           | cs2 =>
               match pyLitValue fuel cs2 with
               | none => none
               | some (v, cs3) => pyLitArrTail fuel cs3 [v])
      | '{' :: rest =>
          (match trimLeadWs rest with
           | '}' :: rest2 => some (.obj [], rest2)
           | cs2 =>
               match pyLitMember fuel cs2 with
               | none => none
               | some (k, v, cs3) => pyLitObjTail fuel cs3 (pyDictInsert [] k v))
      | cs1 => pyLitNumber cs1

/-- The elements of a Python list literal after the first one; a
trailing comma before the closing bracket is accepted, as in Python. -/
def pyLitArrTail : Nat → List Char → List Value → Option (Value × List Char)
  | 0, _, _ => none
  | fuel + 1, cs, acc =>
      match trimLeadWs cs with
      | ',' :: rest =>
          (match trimLeadWs rest with
           | ']' :: rest2 => some (.arr acc, rest2)
           | cs2 =>
               match pyLitValue fuel cs2 with
               | none => none
               | some (v, cs3) => pyLitArrTail fuel cs3 (acc ++ [v]))
      | ']' :: rest => some (.arr acc, rest)
      | _ => none

/-- One key-value member of a Python dict literal (string keys only). -/
def pyLitMember : Nat → List Char → Option (String × Value × List Char)
  | 0, _ => none
  | fuel + 1, cs =>
      match pyLitValue fuel cs with
      | some (.str k, cs2) =>
          (match trimLeadWs cs2 with
           | ':' :: cs3 =>
               (match pyLitValue fuel cs3 with
                | none => none
                | some (v, cs4) => some (k, v, cs4))
           | _ => none)
      | _ => none

/-- The members of a Python dict literal after the first one. -/
def pyLitObjTail : Nat → List Char → Bindings → Option (Value × List Char)
  | 0, _, _ => none
  | fuel + 1, cs, acc =>
      match trimLeadWs cs with
      | ',' :: rest =>
          (match trimLeadWs rest with
           | '}' :: rest2 => some (.obj acc, rest2)
           | cs2 =>
               match pyLitMember fuel cs2 with
               | none => none
               | some (k, v, cs3) => pyLitObjTail fuel cs3 (pyDictInsert acc k v))
      | '}' :: rest => some (.obj acc, rest)
      | _ => none

end

/-- Python ast.literal_eval on a whole string (see pyLitValue for the
modelled subset). -/
def pyLiteralEval (cs : List Char) : Option Value :=
  match pyLitValue (2 * cs.length + 4) cs with
  | none => none
  | some (v, rest) => if (trimLeadWs rest).isEmpty then some v else none

/-- Classify and coerce one override value token
(apply_runtime_overrides, source lines 86-108). -/
def parse_override_value (cs : List Char) : Except RunErr Value :=
  if isPreL ['{'] cs && endsWithChar '}' cs then
    match jsonLoads cs with
    | some v => .ok v
    | none => .error .jsonDecodeErr
  else if isPreL ['['] cs && endsWithChar ']' cs then
    match pyLiteralEval cs with
    | some v => .ok v
    | none => .error .valueErr
  else if lowerL cs = ("true").data then .ok (.bool true)
  else if lowerL cs = ("false").data then .ok (.bool false)
  else if lowerL cs = ("null").data || lowerL cs = ("none").data then .ok .null
  else
    match pyIntL? cs with
    | some n => .ok (.int n)
    | none =>
        match pyFloatL? cs with
        | some p => .ok (.float p.1 p.2)
        | none => .ok (.str (String.mk (stripQuoteEnds cs)))

/-- The loop over key=value pairs of the override string
(apply_runtime_overrides, source lines 84-108): split each pair at the
first equals sign (a pair without one raises ValueError), coerce the
value, and assign into the overrides dict in order. -/
def parsePairs : List (List Char) → Bindings → Except RunErr Bindings
  | [], acc => .ok acc
  | p :: rest, acc =>
      match splitFirstAt '=' p with
      | none => .error .valueErr
      | some (k, vtxt) =>
          match parse_override_value vtxt with
          | .error e => .error e
          | .ok v => parsePairs rest (pyDictInsert acc (String.mk k) v)

/-- Parse the semicolon-delimited runtime override string into a
bindings dict (apply_runtime_overrides, source lines 82-108). An empty
string contributes nothing. -/
def parse_runtime_overrides (s : String) : Except RunErr Bindings :=
  if s = "" then .ok []
  else parsePairs (splitOnCharL ';' s.data) []

/-- Python: insert only when the key is not already present. -/
def insertIfAbsent (acc : Bindings) (k : String) (v : Value) : Bindings :=
  if containsKey acc k then acc else pyDictInsert acc k v

/-- Merge the defaults into the overrides dict (apply_runtime_overrides,
source lines 111-114): for each defaults-list element in order, for
each of its pairs in order, insert only if the key is absent. -/
def merge_defaults (ov : Bindings) (defaults : List (List (String × Value))) : Bindings :=
  defaults.foldl (fun acc d => d.foldl (fun a p => insertIfAbsent a p.1 p.2) acc) ov

/-- Interpret the elements of the defaults list: each must be a dict. -/
def objListOf : List Value → Except RunErr (List (List (String × Value)))
  | [] => .ok []
  | .obj ms :: rest =>
      (match objListOf rest with
       | .error e => .error e
       | .ok l => .ok (ms :: l))
  | _ :: _ => .error .attributeErr

/-- Iterate the defaults value as Python does: a list of dicts yields
their member lists; iterating an empty string or empty dict yields
nothing; any other shape raises (AttributeError when the iterated
element lacks an items method, TypeError when the value is not
iterable at all). -/
def toDefaultsList : Value → Except RunErr (List (List (String × Value)))
  | .arr xs => objListOf xs
  | .str s => if s.isEmpty then .ok [] else .error .attributeErr
  | .obj ms => if ms.isEmpty then .ok [] else .error .attributeErr
  | _ => .error .typeErr

/-- Python comparison operator nodes (all of them are in the allowed
node set of safe_evaluate_condition). -/
inductive CmpOp where
  | eq : CmpOp
  | ne : CmpOp
  | lt : CmpOp
  | le : CmpOp
  | gt : CmpOp
  | ge : CmpOp

/-- Python boolean combinator operator nodes (ast.And, ast.Or). -/
inductive BoolOpK where
  | andK : BoolOpK
  | orK : BoolOpK

/-- Python arithmetic operator nodes (ast.Add and friends). -/
inductive BinOpK where
  | add : BinOpK
  | sub : BinOpK
  | mul : BinOpK
  | div : BinOpK

/-- Python unary operator nodes (ast.Not, ast.USub, ast.UAdd). -/
inductive UnOpK where
  | notK : UnOpK
  | negK : UnOpK
  | posK : UnOpK

/-- The Python expression syntax tree (the fragment of the ast module
reachable from expressions in eval mode that the tokenizer below can
produce). Constants hold scalar values only, as ast.Constant does. -/
inductive PyExpr where
  | constant (v : Value) : PyExpr
  | name (s : String) : PyExpr
  | ifExp (test body orelse : PyExpr) : PyExpr
  | compare (left : PyExpr) (rest : List (CmpOp × PyExpr)) : PyExpr
  | boolOp (k : BoolOpK) (vals : List PyExpr) : PyExpr
  | binOp (l : PyExpr) (k : BinOpK) (r : PyExpr) : PyExpr
  | unaryOp (k : UnOpK) (e : PyExpr) : PyExpr
  | call (f : PyExpr) (args : List PyExpr) : PyExpr
  | subscriptE (v idx : PyExpr) : PyExpr
  | attrE (v : PyExpr) (a : String) : PyExpr

mutual

/-- Whether ast.walk over the tree meets a node outside the allowed
set (Expression, IfExp, Compare, BoolOp, Name, Load, Constant and the
six comparison operators, source line 128). Note that the operator
child of a BoolOp node is an ast.And or ast.Or node, which is not in
the allowed set, so every boolean combinator is reported as
disallowed; likewise every arithmetic, call, subscript, attribute and
unary node. -/
def hasDisallowed : PyExpr → Bool
  | .constant _ => false
  | .name _ => false
  | .ifExp a b c => hasDisallowed a || hasDisallowed b || hasDisallowed c
  | .compare l rest => hasDisallowed l || hasDisallowedChain rest
  | _ => true

/-- hasDisallowed over the comparators of a comparison chain. -/
def hasDisallowedChain : List (CmpOp × PyExpr) → Bool
  | [] => false
  | (_, e) :: rest => hasDisallowed e || hasDisallowedChain rest

end

/-- View a scalar as an exact decimal (mantissa, exponent) when Python
treats it as a number (bool, int, float). -/
def toNumPair : Value → Option (Int × Int)
  | .bool b => some (if b then 1 else 0, 0)
  | .int n => some (n, 0)
  | .float m e => some (m, e)
  | _ => none

/-- Scale two exact decimals to a common exponent, returning the two
comparable mantissas. -/
def numAlign (a : Int × Int) (b : Int × Int) : (Int × Int) :=
  if a.2 ≥ b.2 then (a.1 * (10 : Int) ^ (a.2 - b.2).toNat, b.1)
  else (a.1, b.1 * (10 : Int) ^ (b.2 - a.2).toNat)

/-- Python == on the scalar values that can appear during expression
evaluation (the binding context is filtered to scalars and constants
are scalars, so dicts and lists never reach this; for totality they
compare unequal). Numbers compare across bool, int and float; every
other cross-kind pair compares unequal without error. -/
def pyEqV (x y : Value) : Bool :=
  match toNumPair x, toNumPair y with
  | some a, some b =>
      let p := numAlign a b
      p.1 == p.2
  | _, _ =>
      match x, y with
      | .null, .null => true
      | .str s, .str t => s == t
      | _, _ => false

/-- Python ordered comparison: numbers compare numerically, strings
lexicographically, every other pairing raises TypeError. -/
def pyCmpB (op : CmpOp) (x y : Value) : Except RunErr Bool :=
  match op with
  | .eq => .ok (pyEqV x y)
  | .ne => .ok (!pyEqV x y)
  | _ =>
      match toNumPair x, toNumPair y with
      | some a, some b =>
          let p := numAlign a b
          .ok (match op with
               | .lt => p.1 < p.2
               | .le => p.1 ≤ p.2
               | .gt => p.1 > p.2
               | .ge => p.1 ≥ p.2
               | _ => false)
      | _, _ =>
          match x, y with
          | .str s, .str t =>
              .ok (match op with
                   | .lt => decide (s < t)
                   | .le => decide (s < t) || s == t
                   | .gt => decide (t < s)
                   | .ge => decide (t < s) || s == t
                   | _ => false)
          | _, _ => .error .typeErr

mutual

/-- CPython eval on the checked tree, over the scalar binding context
(globals restricted to no builtins): constants, names, ternaries and
comparison chains. An unbound name raises NameError. The remaining
constructors are unreachable here because safe_evaluate_condition
rejects their nodes before evaluating; they answer TypeError for
totality. -/
def pyEval (ctx : Bindings) : PyExpr → Except RunErr Value
  | .constant v => .ok v
  | .name s =>
      (match pyGet ctx s with
       | some v => .ok v
       | none => .error .nameErr)
  | .ifExp t b e =>
      (match pyEval ctx t with
       | .error er => .error er
       | .ok c => if pyTruthy c then pyEval ctx b else pyEval ctx e)
  | .compare l rest =>
      (match pyEval ctx l with
       | .error er => .error er
       | .ok v => pyEvalChain ctx v rest)
  | .boolOp k vals => pyEvalBool ctx k vals
  | _ => .error .typeErr

/-- A comparison chain, evaluated left to right with short-circuit on
the first false link (Python: a cmp b cmp c). -/
def pyEvalChain (ctx : Bindings) (cur : Value) : List (CmpOp × PyExpr) → Except RunErr Value
  | [] => .ok (.bool true)
  | (op, rhs) :: rest =>
      (match pyEval ctx rhs with
       | .error er => .error er
       | .ok rv =>
           match pyCmpB op cur rv with
           | .error er => .error er
           | .ok true => if rest.isEmpty then .ok (.bool true) else pyEvalChain ctx rv rest
           | .ok false => .ok (.bool false))

/-- Python and/or over a list of operands: the first falsy (resp.
truthy) operand is returned, else the last one. -/
def pyEvalBool (ctx : Bindings) (k : BoolOpK) : List PyExpr → Except RunErr Value
  | [] => .error .typeErr
  | [e] => pyEval ctx e
  | e :: rest =>
      (match pyEval ctx e with
       | .error er => .error er
       | .ok v =>
           match k with
           | .andK => if pyTruthy v then pyEvalBool ctx .andK rest else .ok v
           | .orK => if pyTruthy v then .ok v else pyEvalBool ctx .orK rest)

end

/-- The tokens of the Python expression fragment. -/
inductive Tok where
  | idT (s : String) : Tok
  | numT (v : Value) : Tok
  | strT (s : String) : Tok
  | symT (s : String) : Tok

/-- Identifier start character. -/
def isIdentStart (c : Char) : Bool := c.isAlpha || c = '_'

/-- Identifier continuation character. -/
def isIdentChar (c : Char) : Bool := c.isAlphanum || c = '_'

/-- The body of a Python string literal with quote character q. Only
the plain escape sequences are modelled. -/
def scanStrLit (q : Char) : List Char → Option (List Char × List Char)
  | [] => none
  | c :: rest =>
      if c = q then some ([], rest)
      else if c = '\\' then
        match rest with
        | e :: r2 =>
            (match (match e with
                    | 'n' => some '\n'
                    | 't' => some '\t'
                    | '\\' => some '\\'
                    | '\'' => some '\''
                    | '"' => some '"'
                    | _ => none) with
             | none => none
             | some d => (scanStrLit q r2).map (fun p => (d :: p.1, p.2)))
        | [] => none
      else (scanStrLit q rest).map (fun p => (c :: p.1, p.2))

/-- The Python tokenizer for the expression fragment: identifiers and
keywords, numbers, string literals, comparison operators, arithmetic
operators, parentheses, brackets, comma and dot. An unknown character
is a SyntaxError (none). -/
def tokenize : Nat → List Char → Option (List Tok)
  | 0, _ => none
  | fuel + 1, cs =>
      match trimLeadWs cs with
      | [] => some []
      | c :: rest =>
          if isIdentStart c then
            let run := (c :: rest).takeWhile isIdentChar
            let rem := (c :: rest).dropWhile isIdentChar
            (tokenize fuel rem).map (fun ts => .idT (String.mk run) :: ts)
          else if c.isDigit ||
                  (c = '.' && (match rest with | d :: _ => d.isDigit | [] => false)) then
            let t := numTokTail (c :: rest)
            match pyIntL? t.1 with
            | some n => (tokenize fuel t.2).map (fun ts => .numT (.int n) :: ts)
            | none =>
                (match pyFloatL? t.1 with
                 | some p => (tokenize fuel t.2).map (fun ts => .numT (.float p.1 p.2) :: ts)
                 | none => none)
          else if c = '"' || c = '\'' then
            match scanStrLit c rest with
            | none => none
            | some (body, rem) =>
                (tokenize fuel rem).map (fun ts => .strT (String.mk body) :: ts)
          else
            match c :: rest with
            | '=' :: '=' :: r => (tokenize fuel r).map (fun ts => .symT ("==") :: ts)
            | '!' :: '=' :: r => (tokenize fuel r).map (fun ts => .symT ("!=") :: ts)
            | '<' :: '=' :: r => (tokenize fuel r).map (fun ts => .symT ("<=") :: ts)
            | '>' :: '=' :: r => (tokenize fuel r).map (fun ts => .symT (">=") :: ts)
            | '<' :: r => (tokenize fuel r).map (fun ts => .symT ("<") :: ts)
            | '>' :: r => (tokenize fuel r).map (fun ts => .symT (">") :: ts)
            | '+' :: r => (tokenize fuel r).map (fun ts => .symT ("+") :: ts)
            | '-' :: r => (tokenize fuel r).map (fun ts => .symT ("-") :: ts)
            | '*' :: r => (tokenize fuel r).map (fun ts => .symT ("*") :: ts)
            | '/' :: r => (tokenize fuel r).map (fun ts => .symT ("/") :: ts)
            | '(' :: r => (tokenize fuel r).map (fun ts => .symT ("(") :: ts)
            | ')' :: r => (tokenize fuel r).map (fun ts => .symT (")") :: ts)
            | '[' :: r => (tokenize fuel r).map (fun ts => .symT ("[") :: ts)
            | ']' :: r => (tokenize fuel r).map (fun ts => .symT ("]") :: ts)
            | ',' :: r => (tokenize fuel r).map (fun ts => .symT (",") :: ts)
            | '.' :: r => (tokenize fuel r).map (fun ts => .symT (".") :: ts)
            | _ => none

/-- Map a token to a comparison operator node, when it is one. -/
def cmpOpOf : Tok → Option CmpOp
  | .symT "==" => some .eq
  | .symT "!=" => some .ne
  | .symT "<" => some .lt
  | .symT "<=" => some .le
  | .symT ">" => some .gt
  | .symT ">=" => some .ge
  | _ => none

mutual

/-- Conditional expression: or-test, optionally followed by if
or-test else conditional-expression (Python grammar, lowest
precedence). All parse functions are fuel-bounded recursive descent
over the token list; the fuel bounds only the recursion depth. -/
def parseTernary : Nat → List Tok → Option (PyExpr × List Tok)
  | 0, _ => none
  | fuel + 1, ts =>
      match parseOrE fuel ts with
      | none => none
      | some (e, ts1) =>
          match ts1 with
          | .idT "if" :: ts2 =>
              (match parseOrE fuel ts2 with
               | none => none
               | some (c, ts3) =>
                   match ts3 with
                   | .idT "else" :: ts4 =>
                       (match parseTernary fuel ts4 with
                        | none => none
                        | some (el, ts5) => some (.ifExp c e el, ts5))
                   | _ => none)
          | _ => some (e, ts1)

/-- Or-test: and-tests combined by or (collapsed into one BoolOp node
with the list of operands, as ast does). -/
def parseOrE : Nat → List Tok → Option (PyExpr × List Tok)
  | 0, _ => none
  | fuel + 1, ts =>
      match parseAndE fuel ts with
      | none => none
      | some (e, ts1) => parseOrTail fuel ts1 [e]

/-- The operands of an or chain after the first one. -/
def parseOrTail : Nat → List Tok → List PyExpr → Option (PyExpr × List Tok)
  | 0, _, _ => none
  | fuel + 1, ts, acc =>
      match ts with
      | .idT "or" :: ts2 =>
          (match parseAndE fuel ts2 with
           | none => none
           | some (e, ts3) => parseOrTail fuel ts3 (acc ++ [e]))
      | _ =>
          match acc with
          | [e] => some (e, ts)
          | _ => some (.boolOp .orK acc, ts)

/-- And-test: not-tests combined by and. -/
def parseAndE : Nat → List Tok → Option (PyExpr × List Tok)
  | 0, _ => none
  | fuel + 1, ts =>
      match parseNotE fuel ts with
      | none => none
      | some (e, ts1) => parseAndTail fuel ts1 [e]

/-- The operands of an and chain after the first one. -/
def parseAndTail : Nat → List Tok → List PyExpr → Option (PyExpr × List Tok)
  | 0, _, _ => none
  | fuel + 1, ts, acc =>
      match ts with
      | .idT "and" :: ts2 =>
          (match parseNotE fuel ts2 with
           | none => none
           | some (e, ts3) => parseAndTail fuel ts3 (acc ++ [e]))
      | _ =>
          match acc with
          | [e] => some (e, ts)
          | _ => some (.boolOp .andK acc, ts)

/-- Not-test: not not-test, or a comparison. -/
def parseNotE : Nat → List Tok → Option (PyExpr × List Tok)
  | 0, _ => none
  | fuel + 1, ts =>
      match ts with
      | .idT "not" :: ts2 =>
          (match parseNotE fuel ts2 with
           | none => none
           | some (e, ts3) => some (.unaryOp .notK e, ts3))
      | _ => parseCmpE fuel ts

/-- Comparison: an arithmetic expression followed by a possibly empty
chain of comparison operators and operands. -/
def parseCmpE : Nat → List Tok → Option (PyExpr × List Tok)
  | 0, _ => none
  | fuel + 1, ts =>
      match parseArith fuel ts with
      | none => none
      | some (e, ts1) => parseCmpTail fuel ts1 e []

/-- The links of a comparison chain. -/
def parseCmpTail : Nat → List Tok → PyExpr → List (CmpOp × PyExpr) →
    Option (PyExpr × List Tok)
  | 0, _, _, _ => none
  | fuel + 1, ts, left, acc =>
      match ts with
      | t :: ts2 =>
          (match cmpOpOf t with
           | some op =>
               (match parseArith fuel ts2 with
                | none => none
                | some (r, ts3) => parseCmpTail fuel ts3 left (acc ++ [(op, r)]))
           | none =>
               if acc.isEmpty then some (left, ts) else some (.compare left acc, ts))
      | [] => if acc.isEmpty then some (left, ts) else some (.compare left acc, ts)

/-- Additive expression: terms combined by plus and minus, left
associative. -/
def parseArith : Nat → List Tok → Option (PyExpr × List Tok)
  | 0, _ => none
  | fuel + 1, ts =>
      match parseTerm fuel ts with
      | none => none
      | some (e, ts1) => parseArithTail fuel ts1 e

/-- The tail of an additive expression. -/
def parseArithTail : Nat → List Tok → PyExpr → Option (PyExpr × List Tok)
  | 0, _, _ => none
  | fuel + 1, ts, acc =>
      match ts with
      | .symT "+" :: ts2 =>
          (match parseTerm fuel ts2 with
           | none => none
           | some (r, ts3) => parseArithTail fuel ts3 (.binOp acc .add r))
      | .symT "-" :: ts2 =>
          (match parseTerm fuel ts2 with
           | none => none
           | some (r, ts3) => parseArithTail fuel ts3 (.binOp acc .sub r))
      | _ => some (acc, ts)

/-- Multiplicative expression: unary expressions combined by star and
slash, left associative. -/
def parseTerm : Nat → List Tok → Option (PyExpr × List Tok)
  | 0, _ => none
  | fuel + 1, ts =>
      match parseUnary fuel ts with
      | none => none
      | some (e, ts1) => parseTermTail fuel ts1 e

/-- The tail of a multiplicative expression. -/
def parseTermTail : Nat → List Tok → PyExpr → Option (PyExpr × List Tok)
  | 0, _, _ => none
  | fuel + 1, ts, acc =>
      match ts with
      | .symT "*" :: ts2 =>
          (match parseUnary fuel ts2 with
           | none => none
           | some (r, ts3) => parseTermTail fuel ts3 (.binOp acc .mul r))
      | .symT "/" :: ts2 =>
          (match parseUnary fuel ts2 with
           | none => none
           | some (r, ts3) => parseTermTail fuel ts3 (.binOp acc .div r))
      | _ => some (acc, ts)

/-- Unary expression: an optional sign, then a postfix expression. -/
def parseUnary : Nat → List Tok → Option (PyExpr × List Tok)
  | 0, _ => none
  | fuel + 1, ts =>
      match ts with
      | .symT "-" :: ts2 =>
          (match parseUnary fuel ts2 with
           | none => none
           | some (e, ts3) => some (.unaryOp .negK e, ts3))
      | .symT "+" :: ts2 =>
          (match parseUnary fuel ts2 with
           | none => none
           | some (e, ts3) => some (.unaryOp .posK e, ts3))
      | _ => parseTrailerE fuel ts

/-- Postfix expression: an atom followed by call, subscript and
attribute trailers. -/
def parseTrailerE : Nat → List Tok → Option (PyExpr × List Tok)
  | 0, _ => none
  | fuel + 1, ts =>
      match parseAtom fuel ts with
      | none => none
      | some (e, ts1) => parseTrailerTail fuel ts1 e

/-- The trailers of a postfix expression. -/
def parseTrailerTail : Nat → List Tok → PyExpr → Option (PyExpr × List Tok)
  | 0, _, _ => none
  | fuel + 1, ts, acc =>
      match ts with
      | .symT "(" :: .symT ")" :: ts2 => parseTrailerTail fuel ts2 (.call acc [])
      | .symT "(" :: ts2 =>
          (match parseTernary fuel ts2 with
           | none => none
           | some (a, ts3) => parseArgsTail fuel ts3 acc [a])
      | .symT "[" :: ts2 =>
          (match parseTernary fuel ts2 with
           | none => none
           | some (i, ts3) =>
               match ts3 with
               | .symT "]" :: ts4 => parseTrailerTail fuel ts4 (.subscriptE acc i)
               | _ => none)
      | .symT "." :: .idT a :: ts2 => parseTrailerTail fuel ts2 (.attrE acc a)
      | _ => some (acc, ts)

/-- The arguments of a call after the first one. -/
def parseArgsTail : Nat → List Tok → PyExpr → List PyExpr → Option (PyExpr × List Tok)
  | 0, _, _, _ => none
  | fuel + 1, ts, f, acc =>
      match ts with
      | .symT "," :: ts2 =>
          (match parseTernary fuel ts2 with
           | none => none
           | some (a, ts3) => parseArgsTail fuel ts3 f (acc ++ [a]))
      | .symT ")" :: ts2 => parseTrailerTail fuel ts2 (.call f acc)
      | _ => none

/-- Atom: a parenthesised expression, a keyword constant, a name, a
number or a string literal. -/
def parseAtom : Nat → List Tok → Option (PyExpr × List Tok)
  | 0, _ => none
  | fuel + 1, ts =>
      match ts with
      | .symT "(" :: ts2 =>
          (match parseTernary fuel ts2 with
           | none => none
           | some (e, ts3) =>
               match ts3 with
               | .symT ")" :: ts4 => some (e, ts4)
               | _ => none)
      | .idT "True" :: ts2 => some (.constant (.bool true), ts2)
      | .idT "False" :: ts2 => some (.constant (.bool false), ts2)
      | .idT "None" :: ts2 => some (.constant .null, ts2)
      | .idT s :: ts2 =>
          (match s with
           | "if" | "else" | "and" | "or" | "not" => none
           | _ => some (.name s, ts2))
      | .numT v :: ts2 => some (.constant v, ts2)
      | .strT s :: ts2 => some (.constant (.str s), ts2)
      | _ => none

end

/-- Python ast.parse in eval mode over the accepted fragment, followed
by extraction of the expression body: tokenize, then recursive
descent. -/
def astParse (cs : List Char) : Option PyExpr :=
  match tokenize (cs.length + 1) cs with
  | none => none
  | some ts =>
      match parseTernary (12 * ts.length + 16) ts with
      | none => none
      | some (e, rest) => if rest.isEmpty then some e else none

/-- safe_evaluate_condition (source lines 119-147): parse the
expression, walk the tree checking every node against the allowed
kinds, then compile and evaluate. A disallowed node raises ValueError
(printed and re-raised by the generic handler); a parse failure is a
SyntaxError; an unbound name during evaluation is a NameError. The
TypeError handler that exits the process for subscript lookups on None
is unreachable: Subscript nodes are rejected by the node check before
evaluation can raise that TypeError. -/
def safe_evaluate_condition (expr : List Char) (ctx : Bindings) : Except RunErr Value :=
  match astParse expr with
  | none => .error .malformedExpr
  | some t => if hasDisallowed t then .error .valueErr else pyEval ctx t

/-- The scalar-only view of the overrides used as the evaluation
context (evaluate_conditional, source lines 158-165): bindings whose
value is a dict or a list are skipped. -/
def scalarBindings (ov : Bindings) : Bindings :=
  ov.filter (fun p => !p.2.isComplex)

/-- evaluate_conditional (source lines 149-174): evaluate the
expression against the scalar view of the overrides. -/
def evaluate_conditional (ov : Bindings) (expr : List Char) : Except RunErr Value :=
  safe_evaluate_condition expr (scalarBindings ov)

/-- The deferred-substitution marker (source line 64). -/
def markerChars : List Char := ("___TEMP_MARKER___").data

/-- Python str() of an expression result. Evaluation results are
always scalars here (the context is scalar-only and constants are
scalars), so the dict and list renderings are unreachable and
modelled as empty. -/
def pyStrOf : Value → List Char
  | .null => ("None").data
  | .bool true => ("True").data
  | .bool false => ("False").data
  | .int n => intStr n
  | .float m e => floatRepr m e
  | .str s => s.data
  | .obj _ => []
  | .arr _ => []

/-- Render a bare variable reference (the else branch of the regex
callback, source lines 261-273): a dict or list binding becomes the
marker followed by the expression text; a missing binding or a None
binding reproduces the placeholder text; booleans render as the
lowercase words; numbers render via str; strings render wrapped in
double quotes so the later unquoting step can recognise them. -/
def renderVar (ov : Bindings) (body : List Char) : List Char :=
  match (pyGet ov (String.mk body)).getD .null with
  | .obj _ => markerChars ++ body
  | .arr _ => markerChars ++ body
  | .null => '$' :: '{' :: (body ++ ['}'])
  | .bool b => if b then ("true").data else ("false").data
  | .int n => intStr n
  | .float m e => floatRepr m e
  | .str s => '"' :: (s.data ++ ['"'])

/-- The regex callback replace (source lines 244-273), applied to the
text between the placeholder braces. When the text contains both an
if and an else substring it is evaluated as a conditional: a None
result or a ValueError (from a disallowed node) reproduces the
original placeholder text and the run continues; any other exception
propagates. Otherwise the text is treated as a bare variable name. -/
def replaceCb (ov : Bindings) (body : List Char) : Except RunErr (List Char) :=
  if hasSubstrL (("if").data) body && hasSubstrL (("else").data) body then
    match evaluate_conditional ov body with
    | .ok r => if r.isNull then .ok ('$' :: '{' :: (body ++ ['}'])) else .ok (pyStrOf r)
    | .error .valueErr => .ok ('$' :: '{' :: (body ++ ['}']))
    | .error e => .error e
  else .ok (renderVar ov body)

/-- Scan up to the first closing brace: the characters before it and
the remainder after it. -/
def takeToBrace : List Char → Option (List Char × List Char)
  | [] => none
  | c :: rest =>
      if c = '}' then some ([], rest)
      else (takeToBrace rest).map (fun p => (c :: p.1, p.2))

/-- One pass of re.sub with the placeholder pattern (a dollar, an
opening brace, one or more non-brace characters, a closing brace),
scanning left to right, calling f on each matched body and splicing
its result; replacement text is not rescanned. A position where the
match fails (no closing brace, or an empty body) emits one character
and resumes at the next position, as the regex engine does. The fuel
is always at least the length of the remaining input plus one, so the
exhaustion branch is unreachable from rsubM. -/
def rsubAux (f : List Char → Except RunErr (List Char)) :
    Nat → List Char → Except RunErr (List Char)
  | 0, _ => .error .exitErr
  | _ + 1, [] => .ok []
  | fuel + 1, c :: rest =>
      if c = '$' then
        match rest with
        | c2 :: rest2 =>
            if c2 = '{' then
              match takeToBrace rest2 with
              | some (body, tail) =>
                  if body.isEmpty then
                    match rsubAux f fuel rest with
                    | .error e => .error e
                    | .ok t => .ok (c :: t)
                  else
                    (match f body with
                     | .error e => .error e
                     | .ok r =>
                         match rsubAux f fuel tail with
                         | .error e => .error e
                         | .ok t => .ok (r ++ t))
              | none =>
                  match rsubAux f fuel rest with
                  | .error e => .error e
                  | .ok t => .ok (c :: t)
            else
              match rsubAux f fuel rest with
              | .error e => .error e
              | .ok t => .ok (c :: t)
        | [] =>
            match rsubAux f fuel rest with
            | .error e => .error e
            | .ok t => .ok (c :: t)
      else
        match rsubAux f fuel rest with
        | .error e => .error e
        | .ok t => .ok (c :: t)

/-- re.sub over a whole string (source line 274). -/
def rsubM (f : List Char → Except RunErr (List Char)) (cs : List Char) :
    Except RunErr (List Char) :=
  rsubAux f (cs.length + 1) cs

/-- The whole-string post-processing after regex substitution
(source lines 277-295): a fully quote-wrapped result is unquoted; the
exact texts true and false become booleans; the exact text null stays
the string null; otherwise an int parse, then a float parse, then the
literal string. -/
def postProcess (cs : List Char) : Value :=
  if isPreL ['"'] cs && endsWithChar '"' cs then .str (String.mk ((cs.drop 1).dropLast))
  else if cs = ("true").data then .bool true
  else if cs = ("false").data then .bool false
  else if cs = ("null").data then .str (String.mk cs)
  else
    match pyIntL? cs with
    | some n => .int n
    | none =>
        match pyFloatL? cs with
        | some p => .float p.1 p.2
        | none => .str (String.mk cs)

mutual

/-- replace_variable (source lines 238-301): on a string, run the
regex substitution and post-process the result; on dicts and lists,
map over the contents (these branches are dead in the program, since
replace_variable is only called on strings, but they are translated
for faithfulness); other values pass through. -/
def replace_variable (ov : Bindings) : Value → Except RunErr Value
  | .str s =>
      (match rsubM (replaceCb ov) s.data with
       | .error e => .error e
       | .ok cs => .ok (postProcess cs))
  | .obj ms =>
      (match rvMembers ov ms with
       | .error e => .error e
       | .ok ms2 => .ok (.obj ms2))
  | .arr xs =>
      (match rvItems ov xs with
       | .error e => .error e
       | .ok xs2 => .ok (.arr xs2))
  | v => .ok v

/-- replace_variable mapped over dict members. -/
def rvMembers (ov : Bindings) : List (String × Value) → Except RunErr (List (String × Value))
  | [] => .ok []
  | (k, v) :: rest =>
      (match replace_variable ov v with
       | .error e => .error e
       | .ok v2 =>
           match rvMembers ov rest with
           | .error e => .error e
           | .ok rest2 => .ok ((k, v2) :: rest2))

/-- replace_variable mapped over list items. -/
def rvItems (ov : Bindings) : List Value → Except RunErr (List Value)
  | [] => .ok []
  | v :: rest =>
      (match replace_variable ov v with
       | .error e => .error e
       | .ok v2 =>
           match rvItems ov rest with
           | .error e => .error e
           | .ok rest2 => .ok (v2 :: rest2))

end

/-- The handling of one string-valued dict member or list item inside
replace_variables (source lines 185-205, duplicated verbatim for list
items at lines 213-233; factored here once): a string already starting
with the marker is replaced by the binding of the text after removing
every marker occurrence; otherwise replace_variable runs, and when its
result is a string starting with the marker, that string is likewise
replaced by the binding of its marker-stripped text. A missing binding
gives None. -/
def processStringValue (ov : Bindings) (s : String) : Except RunErr Value :=
  if isPreL markerChars s.data then
    .ok ((pyGet ov (String.mk (removeAll markerChars s.data))).getD .null)
  else
    match replace_variable ov (.str s) with
    | .error e => .error e
    | .ok (.str t) =>
        if isPreL markerChars t.data then
          .ok ((pyGet ov (String.mk (removeAll markerChars t.data))).getD .null)
        else .ok (.str t)
    | .ok v => .ok v

mutual

/-- replace_variables (source lines 177-236): walk the document; each
string-valued dict member or list item goes through
processStringValue, other members recurse; a non-container argument
is returned unchanged. -/
def replaceVariables (ov : Bindings) : Value → Except RunErr Value
  | .obj ms =>
      (match rplMembers ov ms with
       | .error e => .error e
       | .ok ms2 => .ok (.obj ms2))
  | .arr xs =>
      (match rplItems ov xs with
       | .error e => .error e
       | .ok xs2 => .ok (.arr xs2))
  | v => .ok v

/-- The dict loop of replace_variables. -/
def rplMembers (ov : Bindings) : List (String × Value) → Except RunErr (List (String × Value))
  | [] => .ok []
  | (k, v) :: rest =>
      (match (match v with
              | .str s => processStringValue ov s
              | w => replaceVariables ov w) with
       | .error e => .error e
       | .ok v2 =>
           match rplMembers ov rest with
           | .error e => .error e
           | .ok rest2 => .ok ((k, v2) :: rest2))

/-- The list loop of replace_variables. -/
def rplItems (ov : Bindings) : List Value → Except RunErr (List Value)
  | [] => .ok []
  | v :: rest =>
      (match (match v with
              | .str s => processStringValue ov s
              | w => replaceVariables ov w) with
       | .error e => .error e
       | .ok v2 =>
           match rplItems ov rest with
           | .error e => .error e
           | .ok rest2 => .ok (v2 :: rest2))

end

/-- apply_runtime_overrides (source lines 63-305): extract the
defaults value, bail out early when both it and the override string
are empty, pop a truthy defaults value from the document, parse the
override string, merge the defaults under first-writer-wins, then
substitute every placeholder in the document. A non-dict document
raises AttributeError at the initial get. -/
def apply_runtime_overrides (data : Value) (runtime_overrides : String) :
    Except RunErr Value :=
  match data with
  | .obj ms =>
      let defaults := (pyGet ms "defaults").getD (.arr [])
      if !pyTruthy defaults && runtime_overrides = "" then .ok (.obj ms)
      else
        let ms1 := if pyTruthy defaults then eraseKey ms "defaults" else ms
        match parse_runtime_overrides runtime_overrides with
        | .error e => .error e
        | .ok ov0 =>
            match toDefaultsList defaults with
            | .error e => .error e
            | .ok dl => replaceVariables (merge_defaults ov0 dl) (.obj ms1)
  | _ => .error .attributeErr

/-- Whether the placeholder regex would match somewhere in the string:
this mirrors the scan of rsubAux exactly (a dollar, an opening brace,
a nonempty brace-free body, a closing brace). -/
def hasPHAux : Nat → List Char → Bool
  | 0, _ => false
  | _ + 1, [] => false
  | fuel + 1, c :: rest =>
      if c = '$' then
        match rest with
        | c2 :: rest2 =>
            if c2 = '{' then
              match takeToBrace rest2 with
              | some (body, _) => if body.isEmpty then hasPHAux fuel rest else true
              | none => hasPHAux fuel rest
            else hasPHAux fuel rest
        | [] => hasPHAux fuel rest
      else hasPHAux fuel rest

/-- Whether the string contains a placeholder match. -/
def hasPH (cs : List Char) : Bool := hasPHAux (cs.length + 1) cs

/-- Whether an association list has pairwise distinct keys, as every
Python dict does. -/
def nodupKeys : List (String × Value) → Bool
  | [] => true
  | (k, _) :: rest => !containsKey rest k && nodupKeys rest

mutual

/-- Whether every object in the tree has pairwise distinct keys: the
well-formedness every json.load result enjoys (the spec Value model
declares object keys unique). -/
def wfKeys : Value → Bool
  | .obj ms => nodupKeys ms && wfKeysM ms
  | .arr xs => wfKeysL xs
  | _ => true

/-- wfKeys over object members. -/
def wfKeysM : List (String × Value) → Bool
  | [] => true
  | (_, v) :: rest => wfKeys v && wfKeysM rest

/-- wfKeys over array items. -/
def wfKeysL : List Value → Bool
  | [] => true
  | v :: rest => wfKeys v && wfKeysL rest

end

mutual

/-- Whether the tree offers nothing for the pruner to remove: no null
anywhere, no empty object or array, and no object whose disabled
member compares equal to True. -/
def noPruneTargets : Value → Bool
  | .null => false
  | .obj ms => !ms.isEmpty && !pyEqTrueO (pyGet ms "disabled") && noPruneM ms
  | .arr xs => !xs.isEmpty && noPruneL xs
  | _ => true

/-- noPruneTargets over object members. -/
def noPruneM : List (String × Value) → Bool
  | [] => true
  | (_, v) :: rest => noPruneTargets v && noPruneM rest

/-- noPruneTargets over array items. -/
def noPruneL : List Value → Bool
  | [] => true
  | v :: rest => noPruneTargets v && noPruneL rest

end

/-- The concatenation of the defaults-list elements, in order: the
first pair carrying a given key in this concatenation is the first
defaults entry that defines the key. -/
def concatAll : List (List (String × Value)) → List (String × Value)
  | [] => []
  | d :: rest => d ++ concatAll rest

/-! ## Helper lemmas -/

theorem sizeOf_snd_lt_obj {ms : List (String × Value)} {p : String × Value}
    (h : p ∈ ms) : sizeOf p.2 < sizeOf (Value.obj ms) := by
  have h1 := List.sizeOf_lt_of_mem h
  have h2 : sizeOf p.2 < sizeOf p := by
    cases p with
    | mk a b => simp
  simp only [Value.obj.sizeOf_spec]
  omega

theorem sizeOf_mem_lt_arr {xs : List Value} {x : Value}
    (h : x ∈ xs) : sizeOf x < sizeOf (Value.arr xs) := by
  have h1 := List.sizeOf_lt_of_mem h
  simp only [Value.arr.sizeOf_spec]
  omega

/-- Structural induction over the Value tree, descending into object
members and array items. -/
theorem value_ind (P : Value → Prop) (hnull : P .null) (hbool : ∀ b, P (.bool b))
    (hint : ∀ n, P (.int n)) (hfloat : ∀ m e, P (.float m e)) (hstr : ∀ s, P (.str s))
    (hobj : ∀ ms, (∀ p ∈ ms, P p.2) → P (.obj ms))
    (harr : ∀ xs, (∀ x ∈ xs, P x) → P (.arr xs)) : ∀ v, P v := by
  have main : ∀ n (v : Value), sizeOf v ≤ n → P v := by
    intro n
    induction n with
    | zero =>
        intro v hv
        exfalso
        cases v <;> simp at hv
    | succ n ih =>
        intro v hv
        cases v with
        | null => exact hnull
        | bool b => exact hbool b
        | int m => exact hint m
        | float m e => exact hfloat m e
        | str s => exact hstr s
        | obj ms =>
            refine hobj ms (fun p hp => ih p.2 ?_)
            have := sizeOf_snd_lt_obj hp
            simp only [Value.obj.sizeOf_spec] at this hv ⊢
            omega
        | arr xs =>
            refine harr xs (fun x hx => ih x ?_)
            have := sizeOf_mem_lt_arr hx
            simp only [Value.arr.sizeOf_spec] at this hv ⊢
            omega
  exact fun v => main (sizeOf v) v (le_refl _)

theorem isNull_false_of_ne {v : Value} (h : v ≠ .null) : v.isNull = false := by
  cases v <;> first | rfl | exact absurd rfl h

theorem rde_scalar (v : Value) (h : v.isScalar = true) :
    remove_disabled_elements v = v := by
  cases v <;> first | rfl | simp [Value.isScalar] at h

/-- A non-disabled object prunes to the object of its pruned members,
provided those are nonempty. -/
theorem rde_obj_eq (ms : List (String × Value))
    (hd : pyEqTrueO (pyGet ms "disabled") = false)
    (hne : rdeMembers ms ≠ []) :
    remove_disabled_elements (.obj ms) = .obj (rdeMembers ms) := by
  rw [remove_disabled_elements]
  rw [hd]
  simp only [Bool.false_eq_true, if_false]
  rw [if_neg (by simpa using hne)]

/-- A member whose value is a non-null scalar survives pruning of the
member list. -/
theorem rdeMembers_keeps {ms : List (String × Value)} {k : String} {v : Value}
    (h : (k, v) ∈ ms) (hs : v.isScalar = true) (hn : v ≠ .null) :
    (k, v) ∈ rdeMembers ms := by
  induction ms with
  | nil => cases h
  | cons p rest ih =>
      cases p with
      | mk k0 v0 =>
          rw [rdeMembers]
          rcases List.mem_cons.mp h with heq | hmem
          · injection heq with hk1 hk2
            subst hk1
            subst hk2
            rw [rde_scalar _ hs, isNull_false_of_ne hn]
            simp
          · by_cases hnull : (remove_disabled_elements v0).isNull = true
            · rw [hnull]
              simp only [if_true]
              exact ih hmem
            · rw [Bool.not_eq_true] at hnull
              rw [hnull]
              simp only [Bool.false_eq_true, if_false]
              exact List.mem_cons_of_mem _ (ih hmem)

/-! ## Claim C4: scalar preservation by the pruner -/

/-- Claim C4, counterexample: the claim says scalars are never removed
by the pruning pass and that only disabled objects and the containers
they empty are removed; but a document with no disabled flag at all
loses its null-valued scalar member, because Python None is both the
JSON null value and the removal marker. -/
theorem c4_scalar_counterexample :
    remove_disabled_elements (.obj [("a", .null), ("b", .int 1)]) = .obj [("b", .int 1)] ∧
    Value.isScalar .null = true ∧
    pyGet [("a", Value.null), ("b", Value.int 1)] ("disabled") = none :=
  ⟨rfl, rfl, rfl⟩

/-- Claim C4 (amended): a scalar given to the pruner directly passes
through unchanged (for Null this is the coincidence of value and
removal marker), and a member holding a non-null scalar is never
removed from a non-disabled object: the object survives as the object
of its pruned members, with that member intact. Null-valued members,
however, are removed (see the counterexample), so only non-null
scalars are never pruned away. -/
theorem c4_scalar_preservation :
    (∀ v : Value, v.isScalar = true → remove_disabled_elements v = v) ∧
    (∀ (ms : List (String × Value)) (k : String) (v : Value),
      v.isScalar = true → v ≠ .null → (k, v) ∈ ms →
      pyEqTrueO (pyGet ms ("disabled")) = false →
      remove_disabled_elements (.obj ms) = .obj (rdeMembers ms) ∧ (k, v) ∈ rdeMembers ms) := by
  constructor
  · exact rde_scalar
  · intro ms k v hs hn hm hd
    have hkeep := rdeMembers_keeps hm hs hn
    exact ⟨rde_obj_eq ms hd (List.ne_nil_of_mem hkeep), hkeep⟩

/-- Witness for c4_scalar_preservation at a concrete input. -/
theorem c4_scalar_witness :
    remove_disabled_elements (.int 7) = .int 7 ∧
    remove_disabled_elements (.obj [("x", .int 5)]) = .obj [("x", .int 5)] ∧
    ("x", Value.int 5) ∈ rdeMembers [("x", .int 5)] := by
  have h := c4_scalar_preservation.2 [("x", .int 5)] ("x") (.int 5) rfl (by simp) (by simp) rfl
  exact ⟨c4_scalar_preservation.1 (.int 7) rfl, h.1.trans rfl, h.2⟩

/-! ## Claim C6: idempotence of the pruner -/

theorem containsKey_false_pyGet {ms : List (String × Value)} {k : String}
    (h : containsKey ms k = false) : pyGet ms k = none := by
  induction ms with
  | nil => rfl
  | cons p rest ih =>
      cases p with
      | mk k0 v0 =>
          rw [containsKey] at h
          rw [pyGet]
          have h1 : (k0 = k → False) ∧ containsKey rest k = false := by
            constructor
            · intro hk
              rw [hk] at h
              simp at h
            · rcases Bool.or_eq_false_iff.mp h with ⟨_, h2⟩
              exact h2
          rw [if_neg h1.1]
          exact ih h1.2

theorem pyGet_rdeMembers_none {ms : List (String × Value)} {k : String}
    (h : pyGet ms k = none) : pyGet (rdeMembers ms) k = none := by
  induction ms with
  | nil => rfl
  | cons p rest ih =>
      cases p with
      | mk k0 v0 =>
          rw [pyGet] at h
          by_cases hk : k0 = k
          · rw [if_pos hk] at h
            cases h
          · rw [if_neg hk] at h
            rw [rdeMembers]
            by_cases hnull : (remove_disabled_elements v0).isNull = true
            · rw [hnull]
              simp only [if_true]
              exact ih h
            · rw [Bool.not_eq_true] at hnull
              rw [hnull]
              simp only [Bool.false_eq_true, if_false, pyGet]
              rw [if_neg hk]
              exact ih h

theorem pyGet_rdeMembers_some {ms : List (String × Value)} {k : String} {w : Value}
    (hn : nodupKeys ms = true) (h : pyGet ms k = some w) :
    pyGet (rdeMembers ms) k =
      (if (remove_disabled_elements w).isNull = true then none
       else some (remove_disabled_elements w)) := by
  induction ms with
  | nil => cases h
  | cons p rest ih =>
      cases p with
      | mk k0 v0 =>
          rw [nodupKeys] at hn
          rcases Bool.and_eq_true_iff.mp hn with ⟨hn1, hn2⟩
          rw [pyGet] at h
          rw [rdeMembers]
          by_cases hk : k0 = k
          · rw [if_pos hk] at h
            injection h with hw
            subst hw
            have hrest : pyGet rest k = none := by
              apply containsKey_false_pyGet
              rw [← hk]
              simpa using hn1
            by_cases hnull : (remove_disabled_elements v0).isNull = true
            · rw [hnull]
              simp only [if_true]
              rw [pyGet_rdeMembers_none hrest]
            · rw [Bool.not_eq_true] at hnull
              rw [hnull]
              simp only [Bool.false_eq_true, if_false, pyGet]
              rw [if_pos hk]
          · rw [if_neg hk] at h
            by_cases hnull : (remove_disabled_elements v0).isNull = true
            · rw [hnull]
              simp only [if_true]
              exact ih hn2 h
            · rw [Bool.not_eq_true] at hnull
              rw [hnull]
              simp only [Bool.false_eq_true, if_false, pyGet]
              rw [if_neg hk]
              exact ih hn2 h

/-- Pruning a value never makes it compare equal to True when the
original did not: scalars pass through, containers prune to null or to
a container, and no container compares equal to True. -/
theorem pyEqTrueO_rde (w : Value) :
    pyEqTrueO (some (remove_disabled_elements w)) = pyEqTrueO (some w) := by
  cases w with
  | obj ms =>
      rw [remove_disabled_elements]
      by_cases h1 : pyEqTrueO (pyGet ms ("disabled")) = true
      · rw [if_pos h1]
        rfl
      · rw [if_neg h1]
        by_cases h2 : (rdeMembers ms).isEmpty = true
        · rw [if_pos h2]
          rfl
        · rw [if_neg h2]
          rfl
  | arr xs =>
      rw [remove_disabled_elements]
      by_cases h2 : (rdeItems xs).isEmpty = true
      · rw [if_pos h2]
        rfl
      · rw [if_neg h2]
        rfl
  | null => rfl
  | bool b => rfl
  | int n => rfl
  | float m e => rfl
  | str s => rfl

theorem wfKeysM_mem {ms : List (String × Value)} {p : String × Value}
    (h : wfKeysM ms = true) (hp : p ∈ ms) : wfKeys p.2 = true := by
  induction ms with
  | nil => cases hp
  | cons q rest ih =>
      cases q with
      | mk k0 v0 =>
          rw [wfKeysM] at h
          rcases Bool.and_eq_true_iff.mp h with ⟨h1, h2⟩
          rcases List.mem_cons.mp hp with heq | hmem
          · rw [heq]
            exact h1
          · exact ih h2 hmem

theorem wfKeysL_mem {xs : List Value} {x : Value}
    (h : wfKeysL xs = true) (hx : x ∈ xs) : wfKeys x = true := by
  induction xs with
  | nil => cases hx
  | cons y rest ih =>
      rw [wfKeysL] at h
      rcases Bool.and_eq_true_iff.mp h with ⟨h1, h2⟩
      rcases List.mem_cons.mp hx with heq | hmem
      · rw [heq]
        exact h1
      · exact ih h2 hmem

theorem rdeMembers_idem {ms : List (String × Value)}
    (ih : ∀ p ∈ ms, wfKeys p.2 = true →
      remove_disabled_elements (remove_disabled_elements p.2) = remove_disabled_elements p.2)
    (hw : wfKeysM ms = true) :
    rdeMembers (rdeMembers ms) = rdeMembers ms := by
  induction ms with
  | nil => rfl
  | cons p rest ihr =>
      cases p with
      | mk k0 v0 =>
          rw [wfKeysM] at hw
          rcases Bool.and_eq_true_iff.mp hw with ⟨hw1, hw2⟩
          have ihrest := ihr (fun q hq hwq => ih q (List.mem_cons_of_mem _ hq) hwq) hw2
          have ihead : remove_disabled_elements (remove_disabled_elements v0)
              = remove_disabled_elements v0 :=
            ih (k0, v0) (List.mem_cons_self _ _) hw1
          rw [rdeMembers]
          by_cases hnull : (remove_disabled_elements v0).isNull = true
          · rw [hnull]
            simp only [if_true]
            exact ihrest
          · rw [Bool.not_eq_true] at hnull
            rw [hnull]
            simp only [Bool.false_eq_true, if_false]
            rw [rdeMembers, ihead, hnull]
            simp only [Bool.false_eq_true, if_false]
            rw [ihrest]

theorem rdeItems_idem {xs : List Value}
    (ih : ∀ x ∈ xs, wfKeys x = true →
      remove_disabled_elements (remove_disabled_elements x) = remove_disabled_elements x)
    (hw : wfKeysL xs = true) :
    rdeItems (rdeItems xs) = rdeItems xs := by
  induction xs with
  | nil => rfl
  | cons v rest ihr =>
      rw [wfKeysL] at hw
      rcases Bool.and_eq_true_iff.mp hw with ⟨hw1, hw2⟩
      have ihrest := ihr (fun q hq hwq => ih q (List.mem_cons_of_mem _ hq) hwq) hw2
      have ihead := ih v (List.mem_cons_self _ _) hw1
      rw [rdeItems]
      by_cases hnull : (remove_disabled_elements v).isNull = true
      · rw [hnull]
        simp only [if_true]
        exact ihrest
      · rw [Bool.not_eq_true] at hnull
        rw [hnull]
        simp only [Bool.false_eq_true, if_false]
        rw [rdeItems, ihead, hnull]
        simp only [Bool.false_eq_true, if_false]
        rw [ihrest]

/-- Claim C6: the disabled-subtree pruner is idempotent on every Value
(the Value model of the spec has unique object keys at every level,
stated here as the wfKeys hypothesis; every json.load result satisfies
it). -/
theorem c6_prune_idempotent (v : Value) (hwf : wfKeys v = true) :
    remove_disabled_elements (remove_disabled_elements v)
      = remove_disabled_elements v := by
  induction v using value_ind with
  | hnull => rfl
  | hbool b => rfl
  | hint n => rfl
  | hfloat m e => rfl
  | hstr s => rfl
  | hobj ms ih =>
      rw [wfKeys] at hwf
      rcases Bool.and_eq_true_iff.mp hwf with ⟨hn, hm⟩
      rw [remove_disabled_elements]
      by_cases hd : pyEqTrueO (pyGet ms ("disabled")) = true
      · rw [if_pos hd]
        rfl
      · rw [if_neg hd]
        by_cases he : (rdeMembers ms).isEmpty = true
        · rw [if_pos he]
          rfl
        · rw [if_neg he]
          rw [remove_disabled_elements]
          have hd2 : pyEqTrueO (pyGet (rdeMembers ms) ("disabled")) = false := by
            cases hg : pyGet ms ("disabled") with
            | none =>
                rw [pyGet_rdeMembers_none hg]
                rfl
            | some w =>
                have hsome := pyGet_rdeMembers_some hn hg
                by_cases hnl : (remove_disabled_elements w).isNull = true
                · rw [if_pos hnl] at hsome
                  rw [hsome]
                  rfl
                · rw [if_neg hnl] at hsome
                  rw [hsome, pyEqTrueO_rde]
                  rw [hg] at hd
                  exact Bool.not_eq_true _ |>.mp hd
          rw [hd2]
          simp only [Bool.false_eq_true, if_false]
          have hri : rdeMembers (rdeMembers ms) = rdeMembers ms :=
            rdeMembers_idem (fun p hp hwp => ih p hp hwp) hm
          rw [hri, if_neg he]
  | harr xs ih =>
      rw [wfKeys] at hwf
      rw [remove_disabled_elements]
      by_cases he : (rdeItems xs).isEmpty = true
      · rw [if_pos he]
        rfl
      · rw [if_neg he]
        rw [remove_disabled_elements]
        have hri : rdeItems (rdeItems xs) = rdeItems xs :=
          rdeItems_idem (fun x hx hwx => ih x hx hwx) hwf
        rw [hri, if_neg he]

/-- Witness for c6_prune_idempotent at a concrete input. -/
theorem c6_prune_witness :
    wfKeys (.obj [("a", .obj [("disabled", .bool true)]), ("b", .int 2)]) = true ∧
    remove_disabled_elements (remove_disabled_elements
        (.obj [("a", .obj [("disabled", .bool true)]), ("b", .int 2)]))
      = remove_disabled_elements
        (.obj [("a", .obj [("disabled", .bool true)]), ("b", .int 2)]) :=
  ⟨rfl, c6_prune_idempotent _ rfl⟩

/-! ## Claim C5: the substitution-and-pruning round trip -/

theorem noPruneTargets_isNull {v : Value} (h : noPruneTargets v = true) :
    v.isNull = false := by
  cases v <;> first | rfl | (rw [noPruneTargets] at h; cases h)

theorem rdeMembers_id {ms : List (String × Value)}
    (ih : ∀ p ∈ ms, noPruneTargets p.2 = true → remove_disabled_elements p.2 = p.2)
    (hm : noPruneM ms = true) : rdeMembers ms = ms := by
  induction ms with
  | nil => rfl
  | cons p rest ihr =>
      cases p with
      | mk k0 v0 =>
          rw [noPruneM] at hm
          rcases Bool.and_eq_true_iff.mp hm with ⟨h1, h2⟩
          have hid : remove_disabled_elements v0 = v0 :=
            ih (k0, v0) (List.mem_cons_self _ _) h1
          rw [rdeMembers, hid, noPruneTargets_isNull h1]
          simp only [Bool.false_eq_true, if_false]
          rw [ihr (fun q hq hwq => ih q (List.mem_cons_of_mem _ hq) hwq) h2]

theorem rdeItems_id {xs : List Value}
    (ih : ∀ x ∈ xs, noPruneTargets x = true → remove_disabled_elements x = x)
    (hm : noPruneL xs = true) : rdeItems xs = xs := by
  induction xs with
  | nil => rfl
  | cons v rest ihr =>
      rw [noPruneL] at hm
      rcases Bool.and_eq_true_iff.mp hm with ⟨h1, h2⟩
      have hid : remove_disabled_elements v = v := ih v (List.mem_cons_self _ _) h1
      rw [rdeItems, hid, noPruneTargets_isNull h1]
      simp only [Bool.false_eq_true, if_false]
      rw [ihr (fun q hq hwq => ih q (List.mem_cons_of_mem _ hq) hwq) h2]

/-- A tree with no null values, no empty containers and no
disabled-equal members passes through the pruner unchanged. -/
theorem rde_id_of_noPrune (v : Value) (h : noPruneTargets v = true) :
    remove_disabled_elements v = v := by
  induction v using value_ind with
  | hnull => cases h
  | hbool b => rfl
  | hint n => rfl
  | hfloat m e => rfl
  | hstr s => rfl
  | hobj ms ih =>
      rw [noPruneTargets] at h
      rcases Bool.and_eq_true_iff.mp h with ⟨h12, h3⟩
      rcases Bool.and_eq_true_iff.mp h12 with ⟨h1, h2⟩
      rw [remove_disabled_elements]
      rw [if_neg (by simpa using h2)]
      rw [rdeMembers_id (fun p hp hwp => ih p hp hwp) h3]
      rw [if_neg (by simpa using h1)]
  | harr xs ih =>
      rw [noPruneTargets] at h
      rcases Bool.and_eq_true_iff.mp h with ⟨h1, h2⟩
      rw [remove_disabled_elements]
      rw [rdeItems_id (fun x hx hwx => ih x hx hwx) h2]
      rw [if_neg (by simpa using h1)]

/-- Claim C5, counterexample: a document with no defaults key, no
placeholder in any string and no disabled flag is changed by the
pipeline when the override string is non-empty: the placeholder-free
string 42 is coerced to the number 42 by the whole-string
post-processing, and the null member is dropped by the pruner. -/
theorem c5_roundtrip_counterexample :
    pyGet [("a", Value.str ("42")), ("b", Value.null)] ("defaults") = none ∧
    hasPH (("42").data) = false ∧
    pyGet [("a", Value.str ("42")), ("b", Value.null)] ("disabled") = none ∧
    apply_runtime_overrides (.obj [("a", .str ("42")), ("b", .null)]) ("x=1")
      = .ok (.obj [("a", .int 42), ("b", .null)]) ∧
    remove_disabled_elements (.obj [("a", .int 42), ("b", .null)]) = .obj [("a", .int 42)] ∧
    Value.obj [("a", .int 42)] ≠ .obj [("a", .str ("42")), ("b", .null)] := by
  refine ⟨rfl, rfl, rfl, rfl, rfl, ?_⟩
  simp

/-- Claim C5 (amended): with an empty override string and no defaults
key the substitution pass returns the document unchanged, and the
pruning pass also returns it unchanged provided the document contains
no null values, no empty containers and no member binding disabled to
a True-equal value (without these conditions the pipeline can change
the document, as the counterexample shows). -/
theorem c5_roundtrip_restricted (ms : List (String × Value))
    (hdef : pyGet ms ("defaults") = none)
    (hp : noPruneTargets (.obj ms) = true) :
    apply_runtime_overrides (.obj ms) ("") = .ok (.obj ms) ∧
    remove_disabled_elements (.obj ms) = .obj ms := by
  constructor
  · rw [apply_runtime_overrides, hdef]
    rfl
  · exact rde_id_of_noPrune _ hp

/-- Witness for c5_roundtrip_restricted at a concrete input. -/
theorem c5_roundtrip_witness :
    pyGet [("a", Value.int 1)] ("defaults") = none ∧
    noPruneTargets (.obj [("a", .int 1)]) = true ∧
    apply_runtime_overrides (.obj [("a", .int 1)]) ("") = .ok (.obj [("a", .int 1)]) ∧
    remove_disabled_elements (.obj [("a", .int 1)]) = .obj [("a", .int 1)] := by
  have h := c5_roundtrip_restricted [("a", .int 1)] rfl rfl
  exact ⟨rfl, rfl, h.1, h.2⟩

/-! ## Claim C1: override precedence and first-default-wins -/

theorem containsKey_eq_isSome (ms : Bindings) (k : String) :
    containsKey ms k = (pyGet ms k).isSome := by
  induction ms with
  | nil => rfl
  | cons p rest ih =>
      cases p with
      | mk k0 v0 =>
          rw [containsKey, pyGet]
          by_cases hk : k0 = k
          · simp [hk]
          · simp [hk, ih]

theorem pyDictInsert_append {ms : Bindings} {k : String} (v : Value)
    (h : containsKey ms k = false) : pyDictInsert ms k v = ms ++ [(k, v)] := by
  induction ms with
  | nil => rfl
  | cons p rest ih =>
      cases p with
      | mk k0 v0 =>
          rw [containsKey] at h
          rcases Bool.or_eq_false_iff.mp h with ⟨h1, h2⟩
          rw [pyDictInsert, if_neg (by simpa using h1)]
          rw [ih h2]
          rfl

theorem pyGet_append (ms1 ms2 : Bindings) (k : String) :
    pyGet (ms1 ++ ms2) k = (pyGet ms1 k).or (pyGet ms2 k) := by
  induction ms1 with
  | nil => rfl
  | cons p rest ih =>
      cases p with
      | mk k0 v0 =>
          rw [List.cons_append, pyGet, pyGet]
          by_cases hk : k0 = k
          · rw [if_pos hk, if_pos hk]
            rfl
          · rw [if_neg hk, if_neg hk]
            exact ih

theorem or_self_of_isSome {a : Option Value} (h : a.isSome = true) (b : Option Value) :
    a.or b = a := by
  cases a with
  | none => cases h
  | some x => rfl

theorem mergeFold_lookup (ps : List (String × Value)) (acc : Bindings) (k : String) :
    pyGet (ps.foldl (fun a p => insertIfAbsent a p.1 p.2) acc) k
      = (pyGet acc k).or (pyGet ps k) := by
  induction ps generalizing acc with
  | nil =>
      rw [List.foldl_nil]
      cases hg : pyGet acc k <;> simp [pyGet]
  | cons p rest ih =>
      cases p with
      | mk k0 v0 =>
          rw [List.foldl_cons, ih]
          rw [insertIfAbsent]
          by_cases hc : containsKey acc k0 = true
          · rw [if_pos hc]
            rw [pyGet]
            by_cases hk : k0 = k
            · rw [if_pos hk]
              subst hk
              have hs : (pyGet acc k0).isSome = true := by
                rw [← containsKey_eq_isSome]
                exact hc
              rw [or_self_of_isSome hs, or_self_of_isSome hs]
            · rw [if_neg hk]
          · rw [if_neg hc, pyDictInsert_append v0 (Bool.not_eq_true _ |>.mp hc)]
            rw [pyGet_append, Option.or_assoc]
            congr 1
            rw [pyGet, pyGet]
            by_cases hk : k0 = k
            · subst hk
              simp [pyGet]
            · simp [pyGet, hk]

theorem merge_defaults_concat (ov : Bindings) (dl : List (List (String × Value))) :
    merge_defaults ov dl
      = (concatAll dl).foldl (fun a p => insertIfAbsent a p.1 p.2) ov := by
  induction dl generalizing ov with
  | nil => rfl
  | cons d rest ih =>
      rw [merge_defaults, List.foldl_cons]
      rw [concatAll, List.foldl_append]
      have := ih (d.foldl (fun a p => insertIfAbsent a p.1 p.2) ov)
      rw [merge_defaults] at this
      exact this

/-- Claim C1: for a well-formed override string, the resolved binding
table answers the explicit runtime override whenever one exists, and
otherwise the value of the first defaults entry (in defaults-list
order, then pair order) that defines the key; later defaults entries
for the same key are ignored. -/
theorem c1_resolver_first_writer_wins (s : String) (ov : Bindings)
    (dl : List (List (String × Value))) (k : String)
    (hparse : parse_runtime_overrides s = .ok ov) :
    pyGet (merge_defaults ov dl) k = (pyGet ov k).or (pyGet (concatAll dl) k) := by
  rw [merge_defaults_concat, mergeFold_lookup]

/-- Witness for c1_resolver_first_writer_wins: the spec examples
(an override beats every defaults entry for its key; among defaults
the first entry wins). -/
theorem c1_resolver_witness :
    parse_runtime_overrides ("env=dev") = .ok [("env", Value.str ("dev"))] ∧
    pyGet (merge_defaults [("env", Value.str ("dev"))]
        [[("env", Value.str ("prod"))], [("env", Value.str ("staging"))]]) ("env")
      = some (.str ("dev")) ∧
    parse_runtime_overrides ("") = .ok [] ∧
    pyGet (merge_defaults []
        [[("region", Value.str ("us"))], [("region", Value.str ("eu"))]]) ("region")
      = some (.str ("us")) := by
  refine ⟨rfl, ?_, rfl, ?_⟩
  · exact (c1_resolver_first_writer_wins ("env=dev") _ _ ("env") rfl).trans rfl
  · exact (c1_resolver_first_writer_wins ("") _ _ ("region") rfl).trans rfl

/-! ## Regex substitution machinery lemmas -/

theorem takeToBrace_len {cs b t : List Char} (h : takeToBrace cs = some (b, t)) :
    cs.length = b.length + 1 + t.length := by
  induction cs generalizing b t with
  | nil => cases h
  | cons c rest ih =>
      rw [takeToBrace] at h
      by_cases hc : c = '}'
      · rw [if_pos hc] at h
        injection h with h1
        injection h1 with h2 h3
        subst h2
        subst h3
        simp only [List.length_cons, List.length_nil]
        omega
      · rw [if_neg hc] at h
        cases htb : takeToBrace rest with
        | none =>
            rw [htb] at h
            cases h
        | some p =>
            rw [htb] at h
            injection h with h1
            cases p with
            | mk b0 t0 =>
                injection h1 with h2 h3
                subst h2
                subst h3
                have := ih htb
                simp only [List.length_cons]
                omega

theorem takeToBrace_append {v post : List Char} (hbr : ∀ c ∈ v, c ≠ '}') :
    takeToBrace (v ++ '}' :: post) = some (v, post) := by
  induction v with
  | nil =>
      rw [List.nil_append, takeToBrace, if_pos rfl]
  | cons c rest ih =>
      rw [List.cons_append, takeToBrace]
      rw [if_neg (hbr c (List.mem_cons_self _ _))]
      rw [ih (fun d hd => hbr d (List.mem_cons_of_mem _ hd))]
      rfl

theorem rsubAux_fuel_irrel (f : List Char → Except RunErr (List Char)) :
    ∀ (fuel1 fuel2 : Nat) (cs : List Char),
    cs.length < fuel1 → cs.length < fuel2 →
    rsubAux f fuel1 cs = rsubAux f fuel2 cs := by
  intro fuel1
  induction fuel1 with
  | zero =>
      intro fuel2 cs h1 h2
      exact absurd h1 (by omega)
  | succ n ih =>
      intro fuel2 cs h1 h2
      cases fuel2 with
      | zero => exact absurd h2 (by omega)
      | succ m =>
          cases cs with
          | nil => rfl
          | cons c rest =>
              simp only [rsubAux]
              simp only [List.length_cons] at h1 h2
              by_cases hc : c = '$'
              · rw [if_pos hc, if_pos hc]
                cases rest with
                | nil =>
                    dsimp only
                    rw [ih m [] (by omega) (by omega)]
                | cons c2 rest2 =>
                    dsimp only
                    simp only [List.length_cons] at h1 h2
                    by_cases hc2 : c2 = '{'
                    · rw [if_pos hc2, if_pos hc2]
                      cases htb : takeToBrace rest2 with
                      | none =>
                          dsimp only
                          rw [ih m (c2 :: rest2) (by simp; omega) (by simp; omega)]
                      | some p =>
                          cases p with
                          | mk body tail =>
                              dsimp only
                              have hlen := takeToBrace_len htb
                              by_cases hb : body.isEmpty = true
                              · rw [if_pos hb, if_pos hb]
                                rw [ih m (c2 :: rest2) (by simp; omega) (by simp; omega)]
                              · rw [if_neg hb, if_neg hb]
                                rw [ih m tail (by omega) (by omega)]
                    · rw [if_neg hc2, if_neg hc2]
                      rw [ih m (c2 :: rest2) (by simp; omega) (by simp; omega)]
              · rw [if_neg hc, if_neg hc]
                rw [ih m rest (by omega) (by omega)]

theorem rsubM_cons_ne (f : List Char → Except RunErr (List Char)) (c : Char)
    (rest : List Char) (hc : c ≠ '$') :
    rsubM f (c :: rest)
      = match rsubM f rest with
        | .error e => .error e
        | .ok t => .ok (c :: t) := by
  rw [rsubM]
  rw [rsubAux.eq_def]
  dsimp only
  rw [if_neg hc]
  rw [rsubAux_fuel_irrel f ((c :: rest).length) (rest.length + 1) rest
    (by simp) (by omega)]
  rfl

theorem rsubM_append_pre (f : List Char → Except RunErr (List Char))
    (pre rest : List Char) (hp : ∀ c ∈ pre, c ≠ '$') :
    rsubM f (pre ++ rest)
      = match rsubM f rest with
        | .error e => .error e
        | .ok t => .ok (pre ++ t) := by
  induction pre with
  | nil =>
      rw [List.nil_append]
      cases rsubM f rest <;> simp
  | cons c pre2 ih =>
      rw [List.cons_append]
      rw [rsubM_cons_ne f c _ (hp c (List.mem_cons_self _ _))]
      rw [ih (fun d hd => hp d (List.mem_cons_of_mem _ hd))]
      cases rsubM f rest <;> simp

theorem rsubM_placeholder (f : List Char → Except RunErr (List Char))
    (v post : List Char) (hv : v ≠ []) (hbr : ∀ c ∈ v, c ≠ '}') :
    rsubM f ('$' :: '{' :: (v ++ '}' :: post))
      = match f v with
        | .error e => .error e
        | .ok r =>
            match rsubM f post with
            | .error e => .error e
            | .ok t => .ok (r ++ t) := by
  rw [rsubM]
  rw [rsubAux]
  rw [if_pos rfl]
  rw [if_pos rfl]
  rw [takeToBrace_append hbr]
  dsimp only
  rw [if_neg (by simpa using hv)]
  rw [rsubAux_fuel_irrel f (('$' :: '{' :: (v ++ '}' :: post)).length) (post.length + 1)
    post (by simp only [List.length_cons, List.length_append]; omega) (by omega)]
  rfl

theorem rsubM_noPH (f : List Char → Except RunErr (List Char)) (cs : List Char)
    (h : hasPH cs = false) : rsubM f cs = .ok cs := by
  rw [hasPH] at h
  rw [rsubM]
  have main : ∀ (fuel : Nat) (l : List Char), l.length < fuel →
      hasPHAux fuel l = false → rsubAux f fuel l = .ok l := by
    intro fuel
    induction fuel with
    | zero =>
        intro l h1 _
        exact absurd h1 (by omega)
    | succ n ih =>
        intro l h1 hph
        cases l with
        | nil => rfl
        | cons c rest =>
            simp only [List.length_cons] at h1
            simp only [rsubAux]
            simp only [hasPHAux] at hph
            by_cases hc : c = '$'
            · rw [if_pos hc] at hph ⊢
              cases rest with
              | nil =>
                  rw [ih [] (by omega) hph]
              | cons c2 rest2 =>
                  dsimp only at hph ⊢
                  simp only [List.length_cons] at h1
                  by_cases hc2 : c2 = '{'
                  · rw [if_pos hc2] at hph ⊢
                    cases htb : takeToBrace rest2 with
                    | none =>
                        rw [htb] at hph
                        rw [ih (c2 :: rest2) (by simp; omega) hph]
                    | some p =>
                        cases p with
                        | mk body tail =>
                            rw [htb] at hph
                            dsimp only at hph ⊢
                            by_cases hb : body.isEmpty = true
                            · rw [if_pos hb] at hph ⊢
                              rw [ih (c2 :: rest2) (by simp; omega) hph]
                            · rw [if_neg hb] at hph
                              cases hph
                  · rw [if_neg hc2] at hph ⊢
                    rw [ih (c2 :: rest2) (by simp; omega) hph]
            · rw [if_neg hc] at hph ⊢
              rw [ih rest (by omega) hph]
  exact main (cs.length + 1) cs (by omega) h

theorem rsubM_no_dollar (f : List Char → Except RunErr (List Char)) (cs : List Char)
    (h : ∀ c ∈ cs, c ≠ '$') : rsubM f cs = .ok cs := by
  have h1 : rsubM f (cs ++ []) = match rsubM f ([] : List Char) with
      | .error e => .error e
      | .ok t => .ok (cs ++ t) := rsubM_append_pre f cs [] h
  have h0 : rsubM f ([] : List Char) = .ok [] := rfl
  rw [h0] at h1
  simpa using h1

/-! ## Substring and number-parser lemmas -/

theorem isPreL_append_self (xs ys : List Char) : isPreL xs (xs ++ ys) = true := by
  induction xs with
  | nil => rfl
  | cons c rest ih =>
      rw [List.cons_append, isPreL]
      simp [ih]

theorem isPre_mono_append {pat l : List Char} (b : List Char)
    (h : isPreL pat l = true) : isPreL pat (l ++ b) = true := by
  induction pat generalizing l with
  | nil => rfl
  | cons p ps ih =>
      cases l with
      | nil => cases h
      | cons c rest =>
          rw [isPreL] at h
          rcases Bool.and_eq_true_iff.mp h with ⟨h1, h2⟩
          rw [List.cons_append, isPreL, h1]
          simp [ih h2]

theorem hasSubstr_nil_pat (l : List Char) : hasSubstrL [] l = true := by
  cases l with
  | nil => rfl
  | cons c rest => rw [hasSubstrL, isPreL]; rfl

theorem hasSubstr_of_isPre {pat cs : List Char} (hpat : pat ≠ [])
    (h : isPreL pat cs = true) : hasSubstrL pat cs = true := by
  cases cs with
  | nil =>
      cases pat with
      | nil => exact absurd rfl hpat
      | cons p ps => cases h
  | cons c rest =>
      rw [hasSubstrL, h]
      rfl

theorem not_isPre_of_not_hasSubstr {pat cs : List Char} (hpat : pat ≠ [])
    (h : hasSubstrL pat cs = false) : isPreL pat cs = false := by
  by_cases hp : isPreL pat cs = true
  · rw [hasSubstr_of_isPre hpat hp] at h
    cases h
  · exact Bool.not_eq_true _ |>.mp hp

theorem hasSubstr_cons_of {pat : List Char} (c : Char) {cs : List Char}
    (h : hasSubstrL pat cs = true) : hasSubstrL pat (c :: cs) = true := by
  rw [hasSubstrL, h]
  simp

theorem hasSubstr_append_right {pat a : List Char} (b : List Char)
    (h : hasSubstrL pat a = true) : hasSubstrL pat (a ++ b) = true := by
  induction a with
  | nil =>
      rw [hasSubstrL] at h
      have : pat = [] := by simpa using h
      rw [this]
      exact hasSubstr_nil_pat _
  | cons c rest ih =>
      rw [hasSubstrL] at h
      rcases Bool.or_eq_true_iff.mp h with h1 | h2
      · rw [List.cons_append, hasSubstrL]
        have h3 := isPre_mono_append b h1
        rw [List.cons_append] at h3
        rw [h3]
        rfl
      · rw [List.cons_append]
        exact hasSubstr_cons_of c (ih h2)

theorem hasSubstr_of_mem_tail {pat : List Char} {c : Char} {cs : List Char}
    (h : hasSubstrL pat cs = true) : hasSubstrL pat (c :: cs) = true :=
  hasSubstr_cons_of c h

theorem mem_dropWhile_of_neg {p : Char → Bool} {c : Char} {cs : List Char}
    (h : c ∈ cs) (hc : p c = false) : c ∈ cs.dropWhile p := by
  induction cs with
  | nil => cases h
  | cons d rest ih =>
      rw [List.dropWhile_cons]
      by_cases hd : p d = true
      · rw [if_pos hd]
        rcases List.mem_cons.mp h with heq | hmem
        · rw [heq] at hc
          rw [hd] at hc
          cases hc
        · exact ih hmem
      · rw [if_neg hd]
        exact h

theorem mem_trimWs {c : Char} {cs : List Char} (h : c ∈ cs) (hw : isWs c = false) :
    c ∈ trimWs cs := by
  rw [trimWs, List.mem_reverse]
  exact mem_dropWhile_of_neg (List.mem_reverse.mpr (mem_dropWhile_of_neg h hw)) hw

theorem mem_splitSign {c : Char} {cs : List Char} (h : c ∈ cs) (hp : c ≠ '+')
    (hm : c ≠ '-') : c ∈ (splitSign cs).2 := by
  cases cs with
  | nil => cases h
  | cons d rest =>
      rw [splitSign]
      by_cases hd1 : d = '+'
      · rw [if_pos hd1]
        rcases List.mem_cons.mp h with heq | hmem
        · exact absurd (heq.trans hd1) hp
        · exact hmem
      · rw [if_neg hd1]
        by_cases hd2 : d = '-'
        · rw [if_pos hd2]
          rcases List.mem_cons.mp h with heq | hmem
          · exact absurd (heq.trans hd2) hm
          · exact hmem
        · rw [if_neg hd2]
          exact h

theorem isUDigitTail_mem {cs : List Char} (ht : isUDigitTail cs = true) :
    ∀ c ∈ cs, c.isDigit = true ∨ c = '_' := by
  have main : ∀ (n : Nat) (l : List Char), l.length ≤ n → isUDigitTail l = true →
      ∀ c ∈ l, c.isDigit = true ∨ c = '_' := by
    intro n
    induction n with
    | zero =>
        intro l hlen _ c hc
        cases l with
        | nil => cases hc
        | cons d rest => simp at hlen
    | succ n ih =>
        intro l hlen hud c hc
        cases l with
        | nil => cases hc
        | cons d rest =>
            rw [isUDigitTail.eq_def] at hud
            dsimp only at hud
            simp only [List.length_cons] at hlen
            by_cases hd : d = '_'
            · rw [if_pos hd] at hud
              cases rest with
              | nil => cases hud
              | cons c2 r2 =>
                  rcases Bool.and_eq_true_iff.mp hud with ⟨h1, h2⟩
                  simp only [List.length_cons] at hlen
                  rcases List.mem_cons.mp hc with heq | hmem
                  · right
                    exact heq.trans hd
                  · rcases List.mem_cons.mp hmem with heq2 | hmem2
                    · left
                      rw [heq2]
                      exact h1
                    · exact ih r2 (by omega) h2 c hmem2
            · rw [if_neg hd] at hud
              rcases Bool.and_eq_true_iff.mp hud with ⟨h1, h2⟩
              rcases List.mem_cons.mp hc with heq | hmem
              · left
                rw [heq]
                exact h1
              · exact ih rest (by omega) h2 c hmem
  exact main cs.length cs (le_refl _) ht

theorem isUDigitRun_mem {cs : List Char} (h : isUDigitRun cs = true) :
    ∀ c ∈ cs, c.isDigit = true ∨ c = '_' := by
  cases cs with
  | nil => intro c hc; cases hc
  | cons d rest =>
      rw [isUDigitRun] at h
      rcases Bool.and_eq_true_iff.mp h with ⟨h1, h2⟩
      intro c hc
      rcases List.mem_cons.mp hc with heq | hmem
      · left
        rw [heq]
        exact h1
      · exact isUDigitTail_mem h2 c hmem

theorem pyIntL_none {cs : List Char} {c : Char} (hc : c ∈ cs) (hw : isWs c = false)
    (hd : c.isDigit = false) (hu : c ≠ '_') (hp : c ≠ '+') (hm : c ≠ '-') :
    pyIntL? cs = none := by
  have h2 : c ∈ (splitSign (trimWs cs)).2 := mem_splitSign (mem_trimWs hc hw) hp hm
  have hr : isUDigitRun (splitSign (trimWs cs)).2 = false := by
    by_cases hrr : isUDigitRun (splitSign (trimWs cs)).2 = true
    · rcases isUDigitRun_mem hrr c h2 with hdig | hund
      · rw [hdig] at hd
        cases hd
      · exact absurd hund hu
    · exact Bool.not_eq_true _ |>.mp hrr
  simp only [pyIntL?]
  rw [if_neg (by simp [hr])]

theorem mem_splitAtFirst (p : Char → Bool) {c : Char} {cs : List Char}
    (h : c ∈ cs) (hc : p c = false) :
    c ∈ (splitAtFirst p cs).1 ∨
      (∃ r, (splitAtFirst p cs).2 = some r ∧ c ∈ r) := by
  induction cs with
  | nil => cases h
  | cons d rest ih =>
      rw [splitAtFirst]
      by_cases hd : p d = true
      · rw [if_pos hd]
        rcases List.mem_cons.mp h with heq | hmem
        · rw [heq] at hc
          rw [hd] at hc
          cases hc
        · exact Or.inr ⟨rest, rfl, hmem⟩
      · rw [if_neg hd]
        dsimp only
        rcases List.mem_cons.mp h with heq | hmem
        · left
          rw [heq]
          exact List.mem_cons_self _ _
        · rcases ih hmem with h1 | ⟨r, hr1, hr2⟩
          · exact Or.inl (List.mem_cons_of_mem _ h1)
          · exact Or.inr ⟨r, hr1, hr2⟩

theorem pyFloatL_none {cs : List Char} {c : Char} (hc : c ∈ cs) (hw : isWs c = false)
    (hd : c.isDigit = false) (hu : c ≠ '_') (hp : c ≠ '+') (hm : c ≠ '-')
    (hdot : c ≠ '.') (he : c ≠ 'e') (hE : c ≠ 'E') :
    pyFloatL? cs = none := by
  have h2 : c ∈ (splitSign (trimWs cs)).2 := mem_splitSign (mem_trimWs hc hw) hp hm
  have hpe : (fun x => x = 'e' || x = 'E') c = false := by
    simp [he, hE]
  simp only [pyFloatL?]
  rcases mem_splitAtFirst (fun x => x = 'e' || x = 'E') h2 hpe with hmant | ⟨ex, hex, hcex⟩
  · have hpd : (fun x => decide (x = '.')) c = false := by simp [hdot]
    rcases mem_splitAtFirst (fun x => decide (x = '.')) hmant hpd with hip | ⟨fp, hfp, hcfp⟩
    · have hipne : (splitAtFirst (fun x => x = '.')
          (splitAtFirst (fun x => x = 'e' || x = 'E')
            (splitSign (trimWs cs)).2).1).1 ≠ [] := List.ne_nil_of_mem hip
      have hiprun : isUDigitRun (splitAtFirst (fun x => x = '.')
          (splitAtFirst (fun x => x = 'e' || x = 'E')
            (splitSign (trimWs cs)).2).1).1 = false := by
        by_cases hrr : isUDigitRun (splitAtFirst (fun x => x = '.')
            (splitAtFirst (fun x => x = 'e' || x = 'E')
              (splitSign (trimWs cs)).2).1).1 = true
        · rcases isUDigitRun_mem hrr c hip with hdig | hund
          · rw [hdig] at hd
            cases hd
          · exact absurd hund hu
        · exact Bool.not_eq_true _ |>.mp hrr
      by_cases hA : ((splitAtFirst (fun x => x = '.')
          (splitAtFirst (fun x => x = 'e' || x = 'E')
            (splitSign (trimWs cs)).2).1).1.isEmpty
          && ((splitAtFirst (fun x => x = '.')
          (splitAtFirst (fun x => x = 'e' || x = 'E')
            (splitSign (trimWs cs)).2).1).2.getD []).isEmpty) = true
      · rw [if_pos hA]
      · rw [if_neg hA]
        rw [if_pos (by simp [hiprun, List.isEmpty_iff, hipne])]
    · have hfprun : isUDigitRun fp = false := by
        by_cases hrr : isUDigitRun fp = true
        · rcases isUDigitRun_mem hrr c hcfp with hdig | hund
          · rw [hdig] at hd
            cases hd
          · exact absurd hund hu
        · exact Bool.not_eq_true _ |>.mp hrr
      rw [hfp]
      have hfpne : fp ≠ [] := List.ne_nil_of_mem hcfp
      by_cases hA : ((splitAtFirst (fun x => x = '.')
          (splitAtFirst (fun x => x = 'e' || x = 'E')
            (splitSign (trimWs cs)).2).1).1.isEmpty
          && ((some fp).getD []).isEmpty) = true
      · rw [if_pos hA]
      · rw [if_neg hA]
        by_cases hB : (!(splitAtFirst (fun x => x = '.')
            (splitAtFirst (fun x => x = 'e' || x = 'E')
              (splitSign (trimWs cs)).2).1).1.isEmpty
            && !isUDigitRun (splitAtFirst (fun x => x = '.')
            (splitAtFirst (fun x => x = 'e' || x = 'E')
              (splitSign (trimWs cs)).2).1).1) = true
        · rw [if_pos hB]
        · rw [if_neg hB]
          rw [if_pos (by simp [hfprun, List.isEmpty_iff, hfpne])]
  · rw [hex]
    have hcex2 : c ∈ (splitSign ex).2 := mem_splitSign hcex hp hm
    have hexrun : isUDigitRun (splitSign ex).2 = false := by
      by_cases hrr : isUDigitRun (splitSign ex).2 = true
      · rcases isUDigitRun_mem hrr c hcex2 with hdig | hund
        · rw [hdig] at hd
          cases hd
        · exact absurd hund hu
      · exact Bool.not_eq_true _ |>.mp hrr
    by_cases hA : ((splitAtFirst (fun x => x = '.')
        (splitAtFirst (fun x => x = 'e' || x = 'E')
          (splitSign (trimWs cs)).2).1).1.isEmpty
        && ((splitAtFirst (fun x => x = '.')
        (splitAtFirst (fun x => x = 'e' || x = 'E')
          (splitSign (trimWs cs)).2).1).2.getD []).isEmpty) = true
    · rw [if_pos hA]
    · rw [if_neg hA]
      by_cases hB : (!(splitAtFirst (fun x => x = '.')
          (splitAtFirst (fun x => x = 'e' || x = 'E')
            (splitSign (trimWs cs)).2).1).1.isEmpty
          && !isUDigitRun (splitAtFirst (fun x => x = '.')
          (splitAtFirst (fun x => x = 'e' || x = 'E')
            (splitSign (trimWs cs)).2).1).1) = true
      · rw [if_pos hB]
      · rw [if_neg hB]
        by_cases hC : (!((splitAtFirst (fun x => x = '.')
            (splitAtFirst (fun x => x = 'e' || x = 'E')
              (splitSign (trimWs cs)).2).1).2.getD []).isEmpty
            && !isUDigitRun ((splitAtFirst (fun x => x = '.')
            (splitAtFirst (fun x => x = 'e' || x = 'E')
              (splitSign (trimWs cs)).2).1).2.getD [])) = true
        · rw [if_pos hC]
        · rw [if_neg hC]
          dsimp only
          rw [if_neg (by simp [hexrun])]

/-- A string containing a character that is not part of any numeric
literal, not quote-initial, and absent from the words true, false and
null, post-processes to itself as a string. -/
theorem postProcess_str_of_badchar (cs : List Char) (c : Char) (hc : c ∈ cs)
    (hq : isPreL ['"'] cs = false)
    (hw : isWs c = false) (hd : c.isDigit = false) (hu : c ≠ '_') (hp : c ≠ '+')
    (hm : c ≠ '-') (hdot : c ≠ '.') (he : c ≠ 'e') (hE : c ≠ 'E')
    (ht : c ∉ (("true").data)) (hf : c ∉ (("false").data)) (hn : c ∉ (("null").data)) :
    postProcess cs = .str (String.mk cs) := by
  rw [postProcess]
  rw [if_neg (by simp [hq])]
  rw [if_neg (by intro heq; exact ht (heq ▸ hc))]
  rw [if_neg (by intro heq; exact hf (heq ▸ hc))]
  rw [if_neg (by intro heq; exact hn (heq ▸ hc))]
  rw [pyIntL_none hc hw hd hu hp hm]
  rw [pyFloatL_none hc hw hd hu hp hm hdot he hE]

theorem removeAllAux_id (p : Char) (ps : List Char) :
    ∀ (fuel : Nat) (cs : List Char), cs.length < fuel →
    hasSubstrL (p :: ps) cs = false → removeAllAux p ps fuel cs = cs := by
  intro fuel
  induction fuel with
  | zero =>
      intro cs h _
      exact absurd h (by omega)
  | succ n ih =>
      intro cs hlen hsub
      cases cs with
      | nil => rfl
      | cons c rest =>
          rw [removeAllAux]
          rw [hasSubstrL] at hsub
          rcases Bool.or_eq_false_iff.mp hsub with ⟨h1, h2⟩
          rw [if_neg (by simp [h1])]
          simp only [List.length_cons] at hlen
          rw [ih rest (by omega) h2]

theorem removeAll_id {pat cs : List Char} (hpat : pat ≠ [])
    (h : hasSubstrL pat cs = false) : removeAll pat cs = cs := by
  cases pat with
  | nil => exact absurd rfl hpat
  | cons p ps =>
      rw [removeAll]
      exact removeAllAux_id p ps (cs.length + 1) cs (by omega) h

theorem removeAll_marker_pre {v : List Char}
    (hms : hasSubstrL markerChars v = false) :
    removeAll markerChars (markerChars ++ v) = v := by
  have hpre : isPreL markerChars (markerChars ++ v) = true := isPreL_append_self _ _
  have hmk : markerChars = '_' :: (("__TEMP_MARKER___").data) := rfl
  rw [hmk] at hpre hms ⊢
  rw [List.cons_append] at hpre ⊢
  rw [removeAll]
  rw [removeAllAux]
  rw [if_pos hpre]
  rw [List.drop_left]
  apply removeAllAux_id
  · simp only [List.length_cons, List.length_append]
    omega
  · exact hms

/-! ## Claim C8: the null-text quirk -/

/-- Claim C8: a string whose regex substitution result is exactly the
text null is returned by the post-processing as the four-character
String null, not as an actual Null value. -/
theorem c8_null_text_string (ov : Bindings) (s : String)
    (h : rsubM (replaceCb ov) s.data = .ok (("null").data)) :
    replace_variable ov (.str s) = .ok (.str ("null")) := by
  rw [replace_variable, h]
  rfl

/-- Witness for c8_null_text_string at a concrete input. -/
theorem c8_null_text_witness :
    rsubM (replaceCb []) (("null").data) = .ok (("null").data) ∧
    replace_variable [] (.str ("null")) = .ok (.str ("null")) :=
  ⟨rfl, c8_null_text_string [] ("null") rfl⟩

/-! ## Claim C2: disallowed expression nodes -/

/-- Claim C2, counterexample: a conditional placeholder whose tree
contains a BinOp node (outside the allowed node set) does not fail the
run; the whole pipeline succeeds and produces an output document with
the placeholder text left unchanged. -/
theorem c2_unsupported_node_counterexample :
    apply_runtime_overrides (.obj [("a", .str ("$\x7bx + 1 if x else 2\x7d"))]) ("x=1")
      = .ok (.obj [("a", .str ("$\x7bx + 1 if x else 2\x7d"))]) := rfl

/-- Claim C2 (amended): for every conditional placeholder expression
whose syntax tree contains a node outside the allowed set, the
ValueError raised by the node check is caught inside the regex
callback, which returns the original placeholder text; the run
continues and no error is surfaced. -/
theorem c2_unsupported_node_soft (ov : Bindings) (body : List Char) (t : PyExpr)
    (hif : hasSubstrL ((("if")).data) body = true)
    (helse : hasSubstrL ((("else")).data) body = true)
    (hp : astParse body = some t) (hd : hasDisallowed t = true) :
    replaceCb ov body = .ok ('$' :: '{' :: (body ++ [ '}' ])) := by
  rw [replaceCb]
  rw [if_pos (by simp [hif, helse])]
  rw [evaluate_conditional, safe_evaluate_condition, hp]
  dsimp only
  rw [if_pos hd]

/-- Witness for c2_unsupported_node_soft at a concrete expression. -/
theorem c2_unsupported_node_witness :
    astParse ((("x + 1 if x else 2")).data) = some (.ifExp (.name ("x"))
      (.binOp (.name ("x")) .add (.constant (.int 1))) (.constant (.int 2))) ∧
    hasDisallowed (.ifExp (.name ("x"))
      (.binOp (.name ("x")) .add (.constant (.int 1))) (.constant (.int 2))) = true ∧
    replaceCb [] ((("x + 1 if x else 2")).data)
      = .ok ('$' :: '{' :: (((("x + 1 if x else 2")).data) ++ [ '}' ])) :=
  ⟨rfl, rfl, c2_unsupported_node_soft [] _ _ rfl rfl rfl rfl⟩

/-! ## Claim C7: whole-string complex splice -/

theorem isPreL_marker_cons {c : Char} (l : List Char) (h : c ≠ '_') :
    isPreL markerChars (c :: l) = false := by
  have hmk : markerChars = '_' :: (("__TEMP_MARKER___").data) := rfl
  rw [hmk, isPreL]
  simp [Ne.symm h]

theorem isPreL_single_cons_ne (q c : Char) (l : List Char) (h : q ≠ c) :
    isPreL [q] (c :: l) = false := by
  rw [isPreL]
  simp [h]

theorem renderVar_complex {ov : Bindings} {v : List Char} {w : Value}
    (hb : pyGet ov (String.mk v) = some w) (hw : w.isComplex = true) :
    renderVar ov v = markerChars ++ v := by
  rw [renderVar, hb]
  cases w <;> first | rfl | simp [Value.isComplex] at hw

/-- Claim C7: a field whose string value is exactly one placeholder
whose variable is bound to an Object or Array is replaced by that
Object or Array directly, via the deferred marker and the
direct-assignment step, with its type preserved. -/
theorem c7_whole_placeholder_splice (ov : Bindings) (v : List Char) (w : Value)
    (hne : v ≠ []) (hbr : ∀ c ∈ v, c ≠ '}')
    (hcond : ¬(hasSubstrL ((("if")).data) v = true ∧
      hasSubstrL ((("else")).data) v = true))
    (hmk : hasSubstrL markerChars v = false)
    (hb : pyGet ov (String.mk v) = some w) (hw : w.isComplex = true) :
    processStringValue ov (String.mk ('$' :: '{' :: (v ++ [ '}' ]))) = .ok w := by
  have h1 : isPreL markerChars ('$' :: '{' :: (v ++ [ '}' ])) = false :=
    isPreL_marker_cons _ (by decide)
  have hrv := renderVar_complex hb hw
  have hpost : postProcess (markerChars ++ v) = .str (String.mk (markerChars ++ v)) := by
    apply postProcess_str_of_badchar _ 'M'
    · exact List.mem_append.mpr (Or.inl (by decide))
    · rw [show markerChars ++ v = '_' :: ((("__TEMP_MARKER___")).data ++ v) from rfl]
      exact isPreL_single_cons_ne _ _ _ (by decide)
    · decide
    · decide
    · decide
    · decide
    · decide
    · decide
    · decide
    · decide
    · decide
    · decide
    · decide
  rw [processStringValue]
  dsimp only
  rw [if_neg (by simp [h1])]
  rw [replace_variable]
  dsimp only
  rw [rsubM_placeholder (replaceCb ov) v [] hne hbr]
  rw [replaceCb]
  rw [if_neg (fun hcc => hcond ⟨(Bool.and_eq_true_iff.mp hcc).1,
    (Bool.and_eq_true_iff.mp hcc).2⟩)]
  rw [hrv]
  dsimp only
  rw [show rsubM (replaceCb ov) [] = .ok [] from rfl]
  dsimp only
  rw [List.append_nil]
  rw [hpost]
  dsimp only
  rw [if_pos (by simp [isPreL_append_self])]
  rw [removeAll_marker_pre hmk]
  rw [hb]
  rfl

/-- Witness for c7_whole_placeholder_splice at a concrete input. -/
theorem c7_whole_placeholder_witness :
    pyGet [("w", Value.obj [("a", Value.int 1)])] (String.mk (("w").data))
      = some (.obj [("a", Value.int 1)]) ∧
    processStringValue [("w", Value.obj [("a", Value.int 1)])]
        (String.mk ('$' :: '{' :: ((("w").data) ++ [ '}' ])))
      = .ok (.obj [("a", Value.int 1)]) := by
  refine ⟨rfl, ?_⟩
  apply c7_whole_placeholder_splice
  · simp
  · intro c hc
    simp at hc
    rw [hc]
    decide
  · intro hcc
    rcases hcc with ⟨hc1, _⟩
    revert hc1
    decide
  · decide
  · rfl
  · rfl

/-! ## Claim C10: embedded string substitution keeps its quotes -/

theorem renderVar_str {ov : Bindings} {v s : List Char}
    (hb : pyGet ov (String.mk v) = some (.str (String.mk s))) :
    renderVar ov v = '"' :: (s ++ [ '"' ]) := by
  rw [renderVar, hb]
  rfl

/-- Claim C10: substituting a string-valued variable embedded inside a
larger string renders the value wrapped in literal double quotes, and
because the surrounding text keeps the whole result from being fully
quote-wrapped, the unquoting step does not fire: the quotes stay in
the output text. -/
theorem c10_embedded_string_quotes (ov : Bindings) (h0 : Char)
    (pre v post s : List Char)
    (hq : h0 ≠ '"') (hu : h0 ≠ '_')
    (hpd : ∀ c ∈ h0 :: pre, c ≠ '$') (hpo : ∀ c ∈ post, c ≠ '$')
    (hvne : v ≠ []) (hbr : ∀ c ∈ v, c ≠ '}')
    (hcond : ¬(hasSubstrL ((("if")).data) v = true ∧
      hasSubstrL ((("else")).data) v = true))
    (hb : pyGet ov (String.mk v) = some (.str (String.mk s))) :
    processStringValue ov (String.mk ((h0 :: pre) ++ '$' :: '{' :: (v ++ '}' :: post)))
      = .ok (.str (String.mk ((h0 :: pre) ++ '"' :: (s ++ '"' :: post)))) := by
  have h1 : isPreL markerChars (h0 :: (pre ++ '$' :: '{' :: (v ++ '}' :: post)))
      = false := isPreL_marker_cons _ hu
  have hout : (h0 :: pre) ++ (('"' :: (s ++ [ '"' ])) ++ post)
      = (h0 :: pre) ++ '"' :: (s ++ '"' :: post) := by
    simp [List.append_assoc]
  have hmemq : '"' ∈ (h0 :: pre) ++ '"' :: (s ++ '"' :: post) := by
    simp
  have hpost : postProcess ((h0 :: pre) ++ '"' :: (s ++ '"' :: post))
      = .str (String.mk ((h0 :: pre) ++ '"' :: (s ++ '"' :: post))) := by
    apply postProcess_str_of_badchar _ '"' hmemq
    · rw [List.cons_append]
      exact isPreL_single_cons_ne _ _ _ (Ne.symm hq)
    · decide
    · decide
    · decide
    · decide
    · decide
    · decide
    · decide
    · decide
    · decide
    · decide
    · decide
  rw [processStringValue]
  dsimp only
  rw [if_neg (by simp [h1])]
  rw [replace_variable]
  dsimp only
  rw [rsubM_append_pre (replaceCb ov) (h0 :: pre) _ hpd]
  rw [rsubM_placeholder (replaceCb ov) v post hvne hbr]
  rw [replaceCb]
  rw [if_neg (fun hcc => hcond ⟨(Bool.and_eq_true_iff.mp hcc).1,
    (Bool.and_eq_true_iff.mp hcc).2⟩)]
  rw [renderVar_str hb]
  rw [rsubM_no_dollar (replaceCb ov) post hpo]
  dsimp only
  rw [hout, hpost]
  dsimp only
  rw [if_neg (by rw [List.cons_append]; simp [isPreL_marker_cons _ hu])]

/-- Witness for c10_embedded_string_quotes at a concrete input. -/
theorem c10_embedded_string_witness :
    pyGet [("v", Value.str ("dev"))] (String.mk (("v").data))
      = some (.str (String.mk (("dev").data))) ∧
    processStringValue [("v", Value.str ("dev"))]
        (String.mk (('x' :: ((": ").data)) ++ '$' :: '{' :: (((("v")).data) ++ '}' :: ((" end").data))))
      = .ok (.str (String.mk (('x' :: ((": ").data)) ++ '"' :: (((("dev")).data) ++ '"' :: ((" end").data))))) := by
  refine ⟨rfl, ?_⟩
  apply c10_embedded_string_quotes
  · decide
  · decide
  · decide
  · decide
  · simp
  · intro c hc
    simp at hc
    rw [hc]
    decide
  · intro hcc
    rcases hcc with ⟨hc1, _⟩
    revert hc1
    decide
  · rfl

/-! ## Claim C3: complex value embedded in a larger string -/

/-- Claim C3, counterexample: a complex-valued variable embedded in a
larger string does not fail the run; the pipeline succeeds and the
output carries the internal marker text spliced into the string. -/
theorem c3_embedded_complex_counterexample :
    apply_runtime_overrides (.obj [("a", .str ("pre $\x7bv\x7d post"))]) ("v=[1]")
      = .ok (.obj [("a", .str ("pre ___TEMP_MARKER___v post"))]) := rfl

/-- Claim C3 (amended): substituting an Object- or Array-bound
variable embedded inside a larger string raises no error: the regex
callback splices the deferred-substitution marker followed by the
variable text into the string, the marker-resolution step does not
fire (the string does not start with the marker), and the run
continues with the marker text left in the output value. -/
theorem c3_embedded_complex_marker (ov : Bindings) (h0 : Char)
    (pre v post : List Char) (w : Value)
    (hq : h0 ≠ '"') (hu : h0 ≠ '_')
    (hpd : ∀ c ∈ h0 :: pre, c ≠ '$') (hpo : ∀ c ∈ post, c ≠ '$')
    (hvne : v ≠ []) (hbr : ∀ c ∈ v, c ≠ '}')
    (hcond : ¬(hasSubstrL ((("if")).data) v = true ∧
      hasSubstrL ((("else")).data) v = true))
    (hb : pyGet ov (String.mk v) = some w) (hw : w.isComplex = true) :
    processStringValue ov (String.mk ((h0 :: pre) ++ '$' :: '{' :: (v ++ '}' :: post)))
      = .ok (.str (String.mk ((h0 :: pre) ++ ((markerChars ++ v) ++ post)))) := by
  have h1 : isPreL markerChars (h0 :: (pre ++ '$' :: '{' :: (v ++ '}' :: post)))
      = false := isPreL_marker_cons _ hu
  have hmemM : 'M' ∈ (h0 :: pre) ++ ((markerChars ++ v) ++ post) :=
    List.mem_append.mpr (Or.inr (List.mem_append.mpr (Or.inl
      (List.mem_append.mpr (Or.inl (by decide))))))
  have hpost : postProcess ((h0 :: pre) ++ ((markerChars ++ v) ++ post))
      = .str (String.mk ((h0 :: pre) ++ ((markerChars ++ v) ++ post))) := by
    apply postProcess_str_of_badchar _ 'M' hmemM
    · rw [List.cons_append]
      exact isPreL_single_cons_ne _ _ _ (Ne.symm hq)
    · decide
    · decide
    · decide
    · decide
    · decide
    · decide
    · decide
    · decide
    · decide
    · decide
    · decide
  rw [processStringValue]
  dsimp only
  rw [if_neg (by simp [h1])]
  rw [replace_variable]
  dsimp only
  rw [rsubM_append_pre (replaceCb ov) (h0 :: pre) _ hpd]
  rw [rsubM_placeholder (replaceCb ov) v post hvne hbr]
  rw [replaceCb]
  rw [if_neg (fun hcc => hcond ⟨(Bool.and_eq_true_iff.mp hcc).1,
    (Bool.and_eq_true_iff.mp hcc).2⟩)]
  rw [renderVar_complex hb hw]
  rw [rsubM_no_dollar (replaceCb ov) post hpo]
  dsimp only
  rw [hpost]
  dsimp only
  rw [if_neg (by rw [List.cons_append]; simp [isPreL_marker_cons _ hu])]

/-- Witness for c3_embedded_complex_marker at a concrete input. -/
theorem c3_embedded_complex_witness :
    pyGet [("v", Value.arr [Value.int 1])] (String.mk (("v").data))
      = some (.arr [Value.int 1]) ∧
    processStringValue [("v", Value.arr [Value.int 1])]
        (String.mk (('p' :: (("re ").data)) ++ '$' :: '{' :: (((("v")).data) ++ '}' :: ((" post").data))))
      = .ok (.str (String.mk (('p' :: (("re ").data))
          ++ ((markerChars ++ (("v")).data) ++ ((" post").data))))) := by
  refine ⟨rfl, ?_⟩
  apply c3_embedded_complex_marker
  · decide
  · decide
  · decide
  · decide
  · simp
  · intro c hc
    simp at hc
    rw [hc]
    decide
  · intro hcc
    rcases hcc with ⟨hc1, _⟩
    revert hc1
    decide
  · rfl
  · rfl

/-! ## Claim C9: placeholder-free strings are still post-processed -/

theorem markerChars_ne_nil : markerChars ≠ [] := by
  intro h
  cases h

theorem hasSubstr_of_drop_one {pat cs : List Char}
    (h : hasSubstrL pat (cs.drop 1) = true) : hasSubstrL pat cs = true := by
  cases cs with
  | nil => simpa using h
  | cons c rest => exact hasSubstr_cons_of c h

theorem hasSubstr_of_dropLast {pat cs : List Char}
    (h : hasSubstrL pat cs.dropLast = true) : hasSubstrL pat cs = true := by
  by_cases hc : cs = []
  · rw [hc]
    rw [hc] at h
    exact h
  · have hsplit := List.dropLast_append_getLast hc
    rw [← hsplit]
    exact hasSubstr_append_right _ h

/-- Post-processing a marker-free string never produces a string that
starts with the marker. -/
theorem postProcess_no_marker {cs : List Char} {t : String}
    (hmk : hasSubstrL markerChars cs = false)
    (h : postProcess cs = .str t) : isPreL markerChars t.data = false := by
  rw [postProcess] at h
  by_cases h1 : (isPreL ['"'] cs && endsWithChar '"' cs) = true
  · rw [if_pos h1] at h
    injection h with ht
    rw [← ht]
    by_cases hpp : isPreL markerChars (String.mk ((cs.drop 1).dropLast)).data = true
    · exfalso
      have hs1 : hasSubstrL markerChars ((cs.drop 1).dropLast) = true :=
        hasSubstr_of_isPre markerChars_ne_nil hpp
      have hs2 := hasSubstr_of_drop_one (hasSubstr_of_dropLast hs1)
      rw [hs2] at hmk
      cases hmk
    · exact Bool.not_eq_true _ |>.mp hpp
  · rw [if_neg h1] at h
    by_cases h2 : cs = (("true")).data
    · rw [if_pos h2] at h
      simp at h
    · rw [if_neg h2] at h
      by_cases h3 : cs = (("false")).data
      · rw [if_pos h3] at h
        simp at h
      · rw [if_neg h3] at h
        by_cases h4 : cs = (("null")).data
        · rw [if_pos h4] at h
          injection h with ht
          rw [← ht, h4]
          decide
        · rw [if_neg h4] at h
          cases hint : pyIntL? cs with
          | some n =>
              rw [hint] at h
              simp at h
          | none =>
              rw [hint] at h
              cases hflt : pyFloatL? cs with
              | some p =>
                  rw [hflt] at h
                  simp at h
              | none =>
                  rw [hflt] at h
                  dsimp only at h
                  injection h with ht
                  rw [← ht]
                  exact not_isPre_of_not_hasSubstr markerChars_ne_nil hmk

/-- A placeholder-free, marker-free string member goes through the
whole-string post-processing. -/
theorem processStringValue_noPH (ov : Bindings) (s : String)
    (hph : hasPH s.data = false)
    (hmk : hasSubstrL markerChars s.data = false) :
    processStringValue ov s = .ok (postProcess s.data) := by
  rw [processStringValue]
  rw [if_neg (by simp [not_isPre_of_not_hasSubstr markerChars_ne_nil hmk])]
  rw [replace_variable, rsubM_noPH _ _ hph]
  dsimp only
  cases hpp : postProcess s.data with
  | str t =>
      dsimp only
      rw [if_neg (by simp [postProcess_no_marker hmk hpp])]
  | null => rfl
  | bool b => rfl
  | int n => rfl
  | float m e => rfl
  | obj ms => rfl
  | arr xs => rfl

/-- replace_variables on a one-member document applies the member
transformation. -/
theorem replaceVariables_single (ov : Bindings) (k : String) (s : String)
    (w : Value) (h : processStringValue ov s = .ok w) :
    replaceVariables ov (.obj [(k, .str s)]) = .ok (.obj [(k, w)]) := by
  rw [replaceVariables, rplMembers]
  rw [h]
  rfl

/-- Claim C9: whenever the defaults list or the override string is
non-empty, a placeholder-free string leaf still goes through the
whole-string post-processing (the first two conjuncts run the whole
pipeline in each scenario, for a leaf free of the internal marker
text); the remaining conjuncts state what that post-processing does: a
fully quote-wrapped string is unquoted, the exact words true and false
become booleans, and integer and float texts become numbers. -/
theorem c9_postprocess_all_strings :
    (∀ (k : String) (s : String) (ovStr : String) (ov : Bindings),
      k ≠ ("defaults") → ovStr ≠ ("") →
      parse_runtime_overrides ovStr = .ok ov →
      hasPH s.data = false → hasSubstrL markerChars s.data = false →
      apply_runtime_overrides (.obj [(k, .str s)]) ovStr
        = .ok (.obj [(k, postProcess s.data)])) ∧
    (∀ (k : String) (s : String) (dms : List (String × Value)),
      k ≠ ("defaults") →
      hasPH s.data = false → hasSubstrL markerChars s.data = false →
      apply_runtime_overrides (.obj [("defaults", .arr [.obj dms]), (k, .str s)]) ("")
        = .ok (.obj [(k, postProcess s.data)])) ∧
    (∀ cs : List Char, isPreL ['"'] cs = true → endsWithChar '"' cs = true →
      postProcess cs = .str (String.mk ((cs.drop 1).dropLast))) ∧
    postProcess ((("true")).data) = .bool true ∧
    postProcess ((("false")).data) = .bool false ∧
    (∀ (cs : List Char) (n : Int),
      (isPreL ['"'] cs && endsWithChar '"' cs) = false →
      pyIntL? cs = some n → postProcess cs = .int n) ∧
    (∀ (cs : List Char) (m e : Int),
      (isPreL ['"'] cs && endsWithChar '"' cs) = false →
      pyIntL? cs = none → pyFloatL? cs = some (m, e) → postProcess cs = .float m e) := by
  refine ⟨?_, ?_, ?_, rfl, rfl, ?_, ?_⟩
  · intro k s ovStr ov hk hov hparse hph hmk
    rw [apply_runtime_overrides]
    have hdef : pyGet [(k, Value.str s)] (("defaults")) = none := by
      rw [pyGet, if_neg hk]
      rfl
    rw [hdef]
    dsimp only [Option.getD]
    rw [if_neg (by simp [pyTruthy, hov])]
    rw [if_neg (by simp [pyTruthy])]
    rw [hparse]
    dsimp only
    rw [show toDefaultsList (.arr []) = .ok [] from rfl]
    dsimp only
    rw [show merge_defaults ov [] = ov from rfl]
    exact replaceVariables_single ov k s _ (processStringValue_noPH ov s hph hmk)
  · intro k s dms hk hph hmk
    rw [apply_runtime_overrides]
    have hdef : pyGet (("defaults", Value.arr [Value.obj dms]) :: [(k, Value.str s)])
        (("defaults")) = some (.arr [.obj dms]) := by
      rw [pyGet, if_pos rfl]
    rw [hdef]
    dsimp only [Option.getD]
    rw [if_neg (by simp [pyTruthy])]
    rw [if_pos (by simp [pyTruthy])]
    rw [show eraseKey (("defaults", Value.arr [Value.obj dms]) :: [(k, Value.str s)])
      (("defaults")) = [(k, Value.str s)] from rfl]
    rw [show parse_runtime_overrides ("") = .ok [] from rfl]
    dsimp only
    rw [show toDefaultsList (.arr [.obj dms]) = .ok [dms] from rfl]
    dsimp only
    exact replaceVariables_single _ k s _
      (processStringValue_noPH (merge_defaults [] [dms]) s hph hmk)
  · intro cs hq he
    rw [postProcess]
    rw [if_pos (by simp [hq, he])]
  · intro cs n hq hint
    have ht : cs ≠ (("true")).data := by
      intro h2
      rw [h2] at hint
      have hz : pyIntL? ((("true")).data) = none := rfl
      rw [hz] at hint
      cases hint
    have hf : cs ≠ (("false")).data := by
      intro h2
      rw [h2] at hint
      have hz : pyIntL? ((("false")).data) = none := rfl
      rw [hz] at hint
      cases hint
    have hn : cs ≠ (("null")).data := by
      intro h2
      rw [h2] at hint
      have hz : pyIntL? ((("null")).data) = none := rfl
      rw [hz] at hint
      cases hint
    rw [postProcess]
    rw [if_neg (by simp [hq])]
    rw [if_neg ht, if_neg hf, if_neg hn, hint]
  · intro cs m e hq hint hflt
    have ht : cs ≠ (("true")).data := by
      intro h2
      rw [h2] at hflt
      have hz : pyFloatL? ((("true")).data) = none := rfl
      rw [hz] at hflt
      cases hflt
    have hf : cs ≠ (("false")).data := by
      intro h2
      rw [h2] at hflt
      have hz : pyFloatL? ((("false")).data) = none := rfl
      rw [hz] at hflt
      cases hflt
    have hn : cs ≠ (("null")).data := by
      intro h2
      rw [h2] at hflt
      have hz : pyFloatL? ((("null")).data) = none := rfl
      rw [hz] at hflt
      cases hflt
    rw [postProcess]
    rw [if_neg (by simp [hq])]
    rw [if_neg ht, if_neg hf, if_neg hn, hint, hflt]

/-- Witness for c9_postprocess_all_strings at concrete inputs: a
quote-wrapped leaf in the override-string scenario, a numeric leaf in
the defaults scenario, and the post-processing facts at concrete
strings. -/
theorem c9_postprocess_witness :
    apply_runtime_overrides (.obj [("a", .str ("\"x\""))]) ("z=1")
      = .ok (.obj [("a", .str ("x"))]) ∧
    apply_runtime_overrides
        (.obj [("defaults", .arr [.obj [("z", .int 1)]]), ("a", .str ("42"))]) ("")
      = .ok (.obj [("a", .int 42)]) ∧
    postProcess (("\"x\"").data) = .str ("x") ∧
    postProcess (("42").data) = .int 42 ∧
    postProcess (("1.5").data) = .float 15 (-1) := by
  refine ⟨?_, ?_, ?_, ?_, ?_⟩
  · exact (c9_postprocess_all_strings.1 ("a") ("\"x\"") ("z=1")
      [("z", Value.int 1)] (by decide) (by decide) rfl rfl rfl).trans rfl
  · exact (c9_postprocess_all_strings.2.1 ("a") ("42") [("z", Value.int 1)]
      (by decide) rfl rfl).trans rfl
  · exact (c9_postprocess_all_strings.2.2.1 (("\"x\"").data) rfl rfl).trans rfl
  · exact c9_postprocess_all_strings.2.2.2.2.2.1 (("42").data) 42 rfl rfl
  · exact c9_postprocess_all_strings.2.2.2.2.2.2 (("1.5").data) 15 (-1) rfl rfl rfl

end VWC
